import Mathlib

/-!
Verification of the msgp extension codec and the type-introspection
pipeline (shallow embedding of the Go sources in `msgp/extension.go`,
`parse/getast.go` and `parse/resolve.go`).

Bytes are modelled as `Nat` values (< 256 for well-formed data), byte
slices as `List Nat`, Go `int8` values as `Int` in `[-128, 128)`, and
fallible functions return `Except MsgpError`.
-/

namespace Msgp

/-- MessagePack prefix bytes. Modelled from the spec: the prefix table in
section 3.2 (the constants `mfixext1` .. `mext32` live in a source file of
this repository that is not part of the provided sources). -/
def mfixext1 : Nat := 0xd4
def mfixext2 : Nat := 0xd5
def mfixext4 : Nat := 0xd6
def mfixext8 : Nat := 0xd7
def mfixext16 : Nat := 0xd8
def mext8 : Nat := 0xc7
def mext16 : Nat := 0xc8
def mext32 : Nat := 0xc9

/-- Modelled from the spec: `ExtensionPrefixSize` (the largest extension
header, `ext32`: prefix + 4 length bytes + type byte). Only used as a
buffer-capacity argument; it does not influence emitted bytes. -/
def extensionPrefixSize : Nat := 6

/-- Go `byte(t)` for an `int8` value `t`: two's-complement low byte. -/
def byteOfInt8 (t : Int) : Nat := (t % 256).toNat

/-- Go `int8(b)` for a byte `b`: signed reinterpretation. -/
def int8OfByte (b : Nat) : Int := if b < 128 then (b : Int) else (b : Int) - 256

/-- `nth b i` is Go's `b[i]` with 0 as default (callers establish bounds). -/
def nth : List Nat → Nat → Nat
  | [], _ => 0
  | x :: _, 0 => x
  | _ :: xs, n + 1 => nth xs n

/-- Go `copy(dst[o:], src)` over a list: overwrite `d.length` bytes of `b`
starting at offset `o`. -/
def listCopy (b : List Nat) (o : Nat) (d : List Nat) : List Nat :=
  b.take o ++ d ++ b.drop (o + d.length)

/-- MessagePack wire kinds (spec section 3.1), used in `TypeError`. -/
inductive Ty where
  | nilKind | boolKind | intKind | uintKind | float32Kind | float64Kind
  | strKind | binKind | arrayKind | mapKind | extKind | invalidKind
  deriving DecidableEq, Repr

/-- `getType` classifies a lead byte. Modelled from the spec: the prefix
table in section 3.2 (the Go `getType` helper is not among the provided
sources; only the classification of extension lead bytes matters here). -/
def getType (lead : Nat) : Ty :=
  if lead ≤ 0x7f then .intKind
  else if lead ≤ 0x8f then .mapKind
  else if lead ≤ 0x9f then .arrayKind
  else if lead ≤ 0xbf then .strKind
  else if lead = 0xc0 then .nilKind
  else if lead = 0xc2 ∨ lead = 0xc3 then .boolKind
  else if lead ≤ 0xc6 then .binKind
  else if lead ≤ 0xc9 then .extKind
  else if lead = 0xca then .float32Kind
  else if lead = 0xcb then .float64Kind
  else if lead ≤ 0xcf then .uintKind
  else if lead ≤ 0xd3 then .intKind
  else if lead ≤ 0xd8 then .extKind
  else if lead ≤ 0xdb then .strKind
  else if lead ≤ 0xdd then .arrayKind
  else if lead ≤ 0xdf then .mapKind
  else if lead ≥ 0xe0 then .intKind
  else .invalidKind

/-- The error taxonomy of `msgp/errors.go` (`errShort`, `errFatal`,
`ArrayError`, `IntOverflow`, `UintOverflow`, `TypeError`,
`InvalidPrefixError`) plus `ExtensionTypeError` from `msgp/extension.go`. -/
inductive MsgpError where
  | errShort
  | errFatal
  | arrayError (wanted got : Nat)
  | intOverflow (value : Int) (failedBitsize : Nat)
  | uintOverflow (value : Nat) (failedBitsize : Nat)
  | typeError (method encoded : Ty)
  | invalidPrefixError (b : Nat)
  | extensionTypeError (got want : Int)
  deriving DecidableEq, Repr

/-- The `Resumable()` method of each error type, case by case from
`msgp/errors.go` and `msgp/extension.go`. -/
def MsgpError.resumable : MsgpError → Bool
  | .errShort => true
  | .errFatal => false
  | .arrayError _ _ => true
  | .intOverflow _ _ => true
  | .uintOverflow _ _ => true
  | .typeError _ _ => true
  | .invalidPrefixError _ => false
  | .extensionTypeError _ _ => true

/-- `Writer.require(k)`: make `k` contiguous writable bytes available and
return (buffer, offset of the fresh bytes). Modelled from the spec
(section 4.1); on the Lean side the sink is unbounded so `require` always
succeeds and simply grows the buffer. -/
def requireW (buf : List Nat) (k : Nat) : List Nat × Nat :=
  (buf ++ List.replicate k 0, buf.length)

/-- `ensure(b, sz)` from the slice API: grow `b` by `sz` writable bytes,
returning (grown slice, old length). Modelled from the spec (section 4.1). -/
def ensureB (b : List Nat) (sz : Nat) : List Nat × Nat :=
  (b ++ List.replicate sz 0, b.length)

/-- `(*Writer).WriteExtension` from `msgp/extension.go`, specialised to an
extension with type id `t` and payload `d` (so `e.Len() = d.length` and
`MarshalBinaryTo` copies `d`).  The `ext16`/`ext32` branches write the type
byte at the absolute buffer indices 3 and 5 (`mw.buf[3]`, `mw.buf[5]`),
exactly as the source does. -/
def writeExtension (buf : List Nat) (t : Int) (d : List Nat) : List Nat :=
  let l := d.length
  let buf1 : List Nat :=
    if l = 0 then
      let (b, o) := requireW buf 3
      ((b.set o mext8).set (o + 1) 0).set (o + 2) (byteOfInt8 t)
    else if l = 1 then buf ++ [mfixext1, byteOfInt8 t]
    else if l = 2 then buf ++ [mfixext2, byteOfInt8 t]
    else if l = 4 then buf ++ [mfixext4, byteOfInt8 t]
    else if l = 8 then buf ++ [mfixext8, byteOfInt8 t]
    else if l = 16 then buf ++ [mfixext16, byteOfInt8 t]
    else if l < 255 then
      let (b, o) := requireW buf 3
      ((b.set o mext8).set (o + 1) (l % 256)).set (o + 2) (byteOfInt8 t)
    else if l < 65535 then
      let (b, o) := requireW buf 4
      (((b.set o mext16).set (o + 1) (l / 256 % 256)).set (o + 2) (l % 256)).set 3 (byteOfInt8 t)
    else
      let (b, o) := requireW buf 6
      (((((b.set o mext32).set (o + 1) (l / 16777216 % 256)).set (o + 2)
        (l / 65536 % 256)).set (o + 3) (l / 256 % 256)).set (o + 4)
        (l % 256)).set 5 (byteOfInt8 t)
  let (b, o) := requireW buf1 l
  listCopy b o d

/-- `AppendExtension` from `msgp/extension.go`, specialised like
`writeExtension`.  Note the source's first `switch l` has no `default`
case, so for `l ∈ {1,2,4,8,16}` execution falls into the second `switch`
and a second (`ext8`) header is emitted after the `fixext` one. -/
def appendExtension (b : List Nat) (t : Int) (d : List Nat) : List Nat :=
  let l := d.length
  let (o, n) := ensureB b (extensionPrefixSize + l)
  if l = 0 then
    (((o.set n mext8).set (n + 1) 0).set (n + 2) (byteOfInt8 t)).take (n + 3)
  else
    let (o, n) :=
      if l = 1 then ((o.set n mfixext1).set (n + 1) (byteOfInt8 t), n + 2)
      else if l = 2 then ((o.set n mfixext2).set (n + 1) (byteOfInt8 t), n + 2)
      else if l = 4 then ((o.set n mfixext4).set (n + 1) (byteOfInt8 t), n + 2)
      else if l = 8 then ((o.set n mfixext8).set (n + 1) (byteOfInt8 t), n + 2)
      else if l = 16 then ((o.set n mfixext16).set (n + 1) (byteOfInt8 t), n + 2)
      else (o, n)
    let (o, n) :=
      if l < 255 then
        (((o.set n mext8).set (n + 1) (l % 256)).set (n + 2) (byteOfInt8 t), n + 3)
      else if l < 65535 then
        ((((o.set n mext16).set (n + 1) (l / 256 % 256)).set (n + 2) (l % 256)).set
          (n + 3) (byteOfInt8 t), n + 4)
      else
        ((((((o.set n mext32).set (n + 1) (l / 16777216 % 256)).set (n + 2)
          (l / 65536 % 256)).set (n + 3) (l / 256 % 256)).set (n + 4)
          (l % 256)).set (n + 5) (byteOfInt8 t), n + 6)
    (listCopy o n d).take (n + l)

/-- `ReadExtensionBytes` from `msgp/extension.go`, decoding into an
extension whose `ExtensionType()` is `etyp`.  On success it returns the
slice handed to `e.UnmarshalBinary` together with the remaining bytes. -/
def readExtensionBytes (b : List Nat) (etyp : Int) :
    Except MsgpError (List Nat × List Nat) :=
  let l := b.length
  if l < 3 then .error .errShort
  else
    let lead := nth b 0
    if lead = mfixext1 then
      readExtFin b (int8OfByte (nth b 1)) 1 2 etyp
    else if lead = mfixext2 then
      readExtFin b (int8OfByte (nth b 1)) 2 2 etyp
    else if lead = mfixext4 then
      readExtFin b (int8OfByte (nth b 1)) 4 2 etyp
    else if lead = mfixext8 then
      readExtFin b (int8OfByte (nth b 1)) 8 2 etyp
    else if lead = mfixext16 then
      readExtFin b (int8OfByte (nth b 1)) 16 2 etyp
    else if lead = mext8 then
      if nth b 1 = 0 then .ok ([], b.drop 3)
      else readExtFin b (int8OfByte (nth b 2)) (nth b 1) 3 etyp
    else if lead = mext16 then
      if l < 4 then .error .errShort
      else readExtFin b (int8OfByte (nth b 3)) (nth b 1 * 256 + nth b 2) 4 etyp
    else if lead = mext32 then
      if l < 6 then .error .errShort
      else readExtFin b (int8OfByte (nth b 5))
        (nth b 1 * 16777216 + nth b 2 * 65536 + nth b 3 * 256 + nth b 4) 6 etyp
    else .error (.typeError .extKind (getType lead))
where
  /-- The common tail of `ReadExtensionBytes`: check the wire type against
  `etyp`, check the payload length, and hand `b[off : off+sz]` to the
  extension. -/
  readExtFin (b : List Nat) (typ : Int) (sz off : Nat) (etyp : Int) :
      Except MsgpError (List Nat × List Nat) :=
    if typ ≠ etyp then .error (.extensionTypeError typ etyp)
    else if (b.drop off).length < sz then .error .errShort
    else .ok ((b.drop off).take sz, b.drop (off + sz))

/-- `Reader.Peek(k)`: the next `k` bytes without advancing. Modelled from
the spec (section 4.4): fewer than `k` available bytes is `ErrShortBytes`. -/
def peekR (input : List Nat) (k : Nat) : Except MsgpError (List Nat) :=
  if input.length < k then .error .errShort else .ok (input.take k)

/-- The common tail of the `fixext` cases of `(*Reader).ReadExtension`:
peek the whole object (`n` bytes), unmarshal `p[2:]`, skip `n`. -/
def readExtFixTail (input : List Nat) (n : Nat) :
    Except MsgpError (List Nat × List Nat) :=
  match peekR input n with
  | .error e => .error e
  | .ok p => .ok (p.drop 2, input.drop n)

/-- The common tail of the sized cases of `(*Reader).ReadExtension`:
peek `read + off` bytes, unmarshal `p[off:]`, skip `read + off`. -/
def readExtSizedTail (input : List Nat) (read off : Nat) :
    Except MsgpError (List Nat × List Nat) :=
  match peekR input (read + off) with
  | .error e => .error e
  | .ok p => .ok (p.drop off, input.drop (read + off))

/-- `(*Reader).ReadExtension` from `msgp/extension.go`, over a stream whose
remaining bytes are `input`, decoding into an extension of type `etyp`.
On success it returns the slice handed to `e.UnmarshalBinary` and the
remaining stream after the final `Skip`. -/
def readExtension (input : List Nat) (etyp : Int) :
    Except MsgpError (List Nat × List Nat) :=
  match peekR input 2 with
  | .error e => .error e
  | .ok p =>
    let lead := nth p 0
    if lead = mfixext1 then
      if int8OfByte (nth p 1) ≠ etyp then
        .error (.extensionTypeError (int8OfByte (nth p 1)) etyp)
      else readExtFixTail input 3
    else if lead = mfixext2 then
      if int8OfByte (nth p 1) ≠ etyp then
        .error (.extensionTypeError (int8OfByte (nth p 1)) etyp)
      else readExtFixTail input 4
    else if lead = mfixext4 then
      if int8OfByte (nth p 1) ≠ etyp then
        .error (.extensionTypeError (int8OfByte (nth p 1)) etyp)
      else readExtFixTail input 6
    else if lead = mfixext8 then
      if int8OfByte (nth p 1) ≠ etyp then
        .error (.extensionTypeError (int8OfByte (nth p 1)) etyp)
      else readExtFixTail input 10
    else if lead = mfixext16 then
      if int8OfByte (nth p 1) ≠ etyp then
        .error (.extensionTypeError (int8OfByte (nth p 1)) etyp)
      else readExtFixTail input 18
    else if lead = mext8 then
      match peekR input 3 with
      | .error e => .error e
      | .ok p =>
        if int8OfByte (nth p 2) ≠ etyp then
          .error (.extensionTypeError (int8OfByte (nth p 2)) etyp)
        else readExtSizedTail input (nth p 1) 3
    else if lead = mext16 then
      match peekR input 4 with
      | .error e => .error e
      | .ok p =>
        if int8OfByte (nth p 3) ≠ etyp then
          .error (.extensionTypeError (int8OfByte (nth p 3)) etyp)
        else readExtSizedTail input (nth p 1 * 256 + nth p 2) 4
    else if lead = mext32 then
      match peekR input 6 with
      | .error e => .error e
      | .ok p =>
        if int8OfByte (nth p 5) ≠ etyp then
          .error (.extensionTypeError (int8OfByte (nth p 5)) etyp)
        else readExtSizedTail input
          (nth p 1 * 16777216 + nth p 2 * 65536 + nth p 3 * 256 + nth p 4) 6
    else .error (.typeError .extKind (getType lead))

/-- `peekExtension` from `msgp/extension.go`.  Every index access `b[i]`
is guarded: `none` models a Go out-of-range panic; the caller must
guarantee at least 3 bytes. -/
def peekExtension (b : List Nat) : Option (Except MsgpError Int) := do
  let lead ← b.get? 0
  if lead = mfixext1 ∨ lead = mfixext2 ∨ lead = mfixext4 ∨
      lead = mfixext8 ∨ lead = mfixext16 then do
    let t ← b.get? 1
    pure (.ok (int8OfByte t))
  else if lead = mext8 then do
    let t ← b.get? 2
    pure (.ok (int8OfByte t))
  else if lead = mext16 then
    if b.length < 4 then pure (.error .errShort)
    else do
      let t ← b.get? 3
      pure (.ok (int8OfByte t))
  else if lead = mext32 then
    if b.length < 5 then pure (.error .errShort)
    else do
      let t ← b.get? 5
      pure (.ok (int8OfByte t))
  else pure (.error (.invalidPrefixError lead))

/-! ## Type model and ingester (`parse` package) -/

/-- `gen.Base`: the base kinds of the element tree. Modelled from the spec
(section 3.3); the `gen` package's declarations are referenced but not part
of the provided sources. -/
inductive Base where
  | String | Bytes | Byte | Int | Int8 | Int16 | Int32 | Int64
  | Uint | Uint8 | Uint16 | Uint32 | Uint64 | Bool
  | Float32 | Float64 | Complex64 | Complex128 | Time | Intf | Ext | IDENT
  deriving DecidableEq, Repr

mutual
/-- `gen.Elem`: the element-tree node (`Ptr`, `Slice`, `Array`, `Map`,
`Struct`, `BaseElem`). Modelled from the spec (section 3.3) together with
the fields used by `parse/getast.go` and `parse/resolve.go`.  A struct
field is `(FieldTag, FieldName, FieldElem)`. -/
inductive Elem where
  | ptr (value : Elem)
  | slice (els : Elem)
  | array (size : String) (els : Elem)
  | map (value : Elem)
  | struct (name : String) (fields : FieldList)
  | base (value : Base) (ident : String) (convert : Bool)
      (shimToBase : String) (shimFromBase : String)
inductive FieldList where
  | fnil
  | fcons (fieldTag : String) (fieldName : String) (fieldElem : Elem)
      (rest : FieldList)
end

/-- Concatenation of struct-field lists (appending to `out`). -/
def fappend : FieldList → FieldList → FieldList
  | .fnil, ys => ys
  | .fcons t n e rest, ys => .fcons t n e (fappend rest ys)

/-- The wire keys of a field list, in order. -/
def fieldTags : FieldList → List String
  | .fnil => []
  | .fcons t _ _ rest => t :: fieldTags rest

/-- The number of fields; the generated encoder's map header size
(`gen/elem_enc.tmpl`, `StructTempl`: `en.WriteMapHeader({{len .Fields}})`). -/
def fieldCount : FieldList → Nat
  | .fnil => 0
  | .fcons _ _ _ rest => fieldCount rest + 1

/-- The shape of an `ast.ArrayType`'s length expression (`nil` length is
`Option.none` at the use site). -/
inductive ALen where
  | lit (value : String)
  | idt (name : String)
  | other
  deriving DecidableEq, Repr

mutual
/-- The `ast.Expr` shapes consumed by `parseExpr` in `parse/getast.go`,
and `ast.Field` lists (`names`, shared type, optional `msg` tag body).
Tag bodies are the result of `reflect.StructTag.Get("msg")`; extracting
them from the raw backquoted tag is host-language detail (spec section
6.2). -/
inductive TExpr where
  | ident (name : String)
  | structType (fields : Fields)
  | arrayType (len : Option ALen) (elt : TExpr)
  | starExpr (x : TExpr)
  | mapType (key : TExpr) (value : TExpr)
  | selectorExpr (x : TExpr) (sel : String)
  | interfaceType (nmethods : Nat)
inductive Fields where
  | nil
  | cons (names : List String) (typ : TExpr) (tag : Option String)
      (rest : Fields)
end

/-- `pullIdent` from `parse/getast.go`: map a type name to its base kind. -/
def pullIdent (name : String) : Base :=
  if name = "string" then .String
  else if name = "[]byte" then .Bytes
  else if name = "byte" then .Byte
  else if name = "int" then .Int
  else if name = "int8" then .Int8
  else if name = "int16" then .Int16
  else if name = "int32" then .Int32
  else if name = "int64" then .Int64
  else if name = "uint" then .Uint
  else if name = "uint8" then .Uint8
  else if name = "uint16" then .Uint16
  else if name = "uint32" then .Uint32
  else if name = "uint64" then .Uint64
  else if name = "bool" then .Bool
  else if name = "float64" then .Float64
  else if name = "float32" then .Float32
  else if name = "complex64" then .Complex64
  else if name = "complex128" then .Complex128
  else if name = "time.Time" then .Time
  else if name = "interface{}" then .Intf
  else if name = "msgp.Extension" ∨ name = "Extension" then .Ext
  else .IDENT

/-- `strings.Split(s, sep)` for a one-character separator (helper used for
the `msg` tag fragments and the `to/from` shim pair). -/
def splitCharAux (c : Char) : List Char → List Char → List (List Char)
  | [], acc => [acc.reverse]
  | x :: xs, acc =>
    if x = c then acc.reverse :: splitCharAux c xs []
    else splitCharAux c xs (x :: acc)

/-- See `splitCharAux`. -/
def splitOnChar (c : Char) (s : String) : List String :=
  (splitCharAux c s.data []).map (fun l => ⟨l⟩)

/-- `strings.HasPrefix` over character lists. -/
def goPrefixed (pre s : String) : Bool :=
  prefixedAux pre.data s.data
where
  prefixedAux : List Char → List Char → Bool
    | [], _ => true
    | _ :: _, [] => false
    | x :: xs, y :: ys => x = y && prefixedAux xs ys

/-- `strings.TrimPrefix`. -/
def goTrimPre (pre s : String) : String :=
  if goPrefixed pre s then ⟨s.data.drop pre.data.length⟩ else s

/-- `parseShim` from `parse/getast.go`:
`"as:{type}"`, `"using:{toShim}/{fromShim}"`. -/
def parseShim (asTag usingTag : String) : Base × String × String :=
  let tp := pullIdent (goTrimPre "as:" asTag)
  match splitOnChar '/' (goTrimPre "using:" usingTag) with
  | [toShim, fromShim] => (tp, toShim, fromShim)
  | _ => (tp, "", "")

/-- `embedded` from `parse/getast.go`: the name of an anonymous field. -/
def embedded : TExpr → String
  | .ident n => n
  | .starExpr x => embedded x
  | _ => ""

/-- `TExpr.isIdentByte e` holds when `e` is the identifier `byte`
(the `[]byte` special cases in `parse/getast.go` test exactly this). -/
def isIdentByte : TExpr → Bool
  | .ident n => n = "byte"
  | _ => false

/-- Expand an inline multi-name field declaration: one `StructField` per
name, the tag ignored, each with the (shared) parsed element. -/
def multiFields : List String → Elem → FieldList
  | [], _ => .fnil
  | nm :: rest, e => .fcons nm nm e (multiFields rest e)

/-- The tail of `parseFieldList`'s per-field body after the tag has been
handled: default the tag, honour `-`, attach the parsed element, apply the
`extension` cast (`parse/getast.go`, the code after the tag `switch`). -/
def mkFinalField (nm ftag : String) (flagExt : Bool) (parsed : Option Elem) :
    FieldList :=
  let ftag2 := if ftag = "" then nm else ftag
  if ftag ≠ "" ∧ ftag = "-" then .fnil
  else
    match parsed with
    | none => .fnil
    | some e =>
      if flagExt then
        match e with
        | .ptr (.base _ i c st sf) => .fcons ftag2 nm (.ptr (.base .Ext i c st sf)) .fnil
        | .base _ i c st sf => .fcons ftag2 nm (.base .Ext i c st sf) .fnil
        | _ => .fnil
      else .fcons ftag2 nm e .fnil

/-- Tag handling for a named (or embedded) field: the `switch len(tags)`
of `parseFieldList` in `parse/getast.go`.  `parsed` is `parseExpr` of the
field's type. -/
def mkNamedField (nm : String) (tag : Option String) (parsed : Option Elem) :
    FieldList :=
  match tag with
  | none => mkFinalField nm "" false parsed
  | some body =>
    let tags := splitOnChar ',' body
    if tags.length = 2 then
      mkFinalField nm (List.getD tags 0 "")
        (if List.getD tags 1 "" = "extension" then true else false) parsed
    else if tags.length = 3 then
      if goPrefixed "as:" (List.getD tags 1 "") ∧
          goPrefixed "using:" (List.getD tags 2 "") then
        match parseShim (List.getD tags 1 "") (List.getD tags 2 "") with
        | (tp, toShim, fromShim) =>
          if toShim ≠ "" ∧ fromShim ≠ "" then
            .fcons (List.getD tags 0 "") nm (.base tp "" true toShim fromShim) .fnil
          else .fnil
      else mkFinalField nm (List.getD tags 0 "") false parsed
    else mkFinalField nm (List.getD tags 0 "") false parsed

/-- One iteration of `parseFieldList`'s field loop, with the parsed field
type passed in: name dispatch on `len(field.Names)`. -/
def parseFieldAux (names : List String) (typ : TExpr) (tag : Option String)
    (parsed : Option Elem) : FieldList :=
  match names with
  | [nm] => mkNamedField nm tag parsed
  | [] =>
    match embedded typ with
    | "" => .fnil
    | nm => mkNamedField nm tag parsed
  | nms =>
    match parsed with
    | none => .fnil
    | some e => multiFields nms e

mutual

/-- `parseExpr` from `parse/getast.go`: translate an `ast.Expr` to a
`gen.Elem`; `none` means the type is unsupported. -/
def parseExpr : TExpr → Option Elem
  | .mapType k v =>
    match k with
    | .ident kn =>
      if kn = "string" then
        match parseExpr v with
        | some inner => some (.map inner)
        | none => none
      else none
    | _ => none
  | .ident n =>
    let b := pullIdent n
    some (.base b (if b = .IDENT then n else "") false "" "")
  | .arrayType len elt =>
    if len.isNone ∧ isIdentByte elt then some (.base .Bytes "" false "" "")
    else
      match parseExpr elt with
      | none => none
      | some els =>
        match len with
        | some (.lit v) => some (.array v els)
        | some (.idt n) => some (.array n els)
        | some .other => none
        | none => some (.slice els)
  | .starExpr x =>
    match parseExpr x with
    | some v => some (.ptr v)
    | none => none
  | .structType fs =>
    match parseFieldList fs with
    | .fnil => none
    | fl => some (.struct "" fl)
  | .selectorExpr x sel =>
    match x with
    | .ident im =>
      if sel = "Time" ∧ im = "time" then some (.base .Time "" false "" "")
      else some (.base .IDENT (im ++ "." ++ sel) false "" "")
    | _ => none
  | .interfaceType nmethods =>
    if nmethods = 0 then some (.base .Intf "" false "" "") else none

/-- `parseFieldList` from `parse/getast.go`. -/
def parseFieldList : Fields → FieldList
  | .nil => .fnil
  | .cons names typ tag rest =>
    fappend (parseFieldAux names typ tag (parseExpr typ)) (parseFieldList rest)

end

/-- The contribution of a single field to `parseFieldList`'s output. -/
def parseField (names : List String) (typ : TExpr) (tag : Option String) :
    FieldList :=
  parseFieldAux names typ tag (parseExpr typ)

/-- An `ast.TypeSpec`: a named type declaration. -/
structure TypeSpec where
  name : String
  typ : TExpr

/-- Go map assignment (`m[k] = v`) on an association list. -/
def insertTable : List (String × Base) → String → Base → List (String × Base)
  | [], k, v => [(k, v)]
  | (k', v') :: rest, k, v =>
    if k' = k then (k, v) :: rest else (k', v') :: insertTable rest k v

/-- Go map lookup. -/
def lookupTable : List (String × Base) → String → Option Base
  | [], _ => none
  | (k', v') :: rest, k => if k' = k then some v' else lookupTable rest k

/-- The identifier-recording `switch ts.Type.(type)` of `GetTypeSpecs` in
`parse/getast.go` for one `TypeSpec` (declarations of other shapes are not
recorded). -/
def recordIdent (m : List (String × Base)) (ts : TypeSpec) :
    List (String × Base) :=
  match ts.typ with
  | .structType _ => insertTable m ts.name .IDENT
  | .ident n => insertTable m ts.name (pullIdent n)
  | .arrayType _ elt =>
    if isIdentByte elt then insertTable m ts.name .Bytes
    else insertTable m ts.name .IDENT
  | .starExpr _ => insertTable m ts.name .IDENT
  | .mapType _ _ => insertTable m ts.name .IDENT
  | _ => m

/-- Pass 1: `globalIdents` after `GetTypeSpecs` has seen every declaration
of the compilation unit. -/
def pass1 (specs : List TypeSpec) : List (String × Base) :=
  specs.foldl recordIdent []

/-- Whether a declaration is a record (`*ast.StructType`). -/
def isStructSpec : TExpr → Bool
  | .structType _ => true
  | _ => false

/-- `globalProcessed` after `GenElem` has run on every declaration:
`GenElem` marks every struct declaration processed (it marks before the
empty-fields check in `parse/getast.go`). -/
def processedOf (specs : List TypeSpec) : List String :=
  (specs.filter fun ts => isStructSpec ts.typ).map TypeSpec.name

/-- `GenElem` from `parse/getast.go`: only struct declarations produce an
element (a `Ptr` wrapping the `Struct`); records with no usable fields are
dropped. -/
def genElem (ts : TypeSpec) : Option Elem :=
  match ts.typ with
  | .structType fs =>
    match parseFieldList fs with
    | .fnil => none
    | fl => some (.ptr (.struct ts.name fl))
  | _ => none

/-- The `gen.BaseType` case of `findUnresolved` in `parse/resolve.go`:
rewrite or report a `BaseElem`.  Returns the (possibly rewritten) node and
the list of unresolved identifiers. -/
def resolveBase (it : List (String × Base)) (pt : List String) (v : Base)
    (i : String) (c : Bool) (st sf : String) : Elem × List String :=
  if v = .IDENT then
    match lookupTable it i with
    | some tp =>
      if pt.contains i then (.base v i c st sf, [])
      else if tp ≠ .IDENT then (.base tp i true "" "", [])
      else (.base v i c st sf, [i])
    | none => (.base v i c st sf, [i])
  else (.base v i c st sf, [])

mutual

/-- `findUnresolved` from `parse/resolve.go` with the in-place mutation
made explicit: resolve an element tree against `globalIdents` (`it`) and
`globalProcessed` (`pt`), returning the rewritten tree and the unresolved
identifiers.  The `default` case of the source `switch` means `Array`
elements are neither walked nor reported. -/
def resolveElem (it : List (String × Base)) (pt : List String) :
    Elem → Elem × List String
  | .ptr v =>
    match resolveElem it pt v with
    | (v', u) => (.ptr v', u)
  | .slice v =>
    match resolveElem it pt v with
    | (v', u) => (.slice v', u)
  | .array s v => (.array s v, [])
  | .map v =>
    match resolveElem it pt v with
    | (v', u) => (.map v', u)
  | .base v i c st sf => resolveBase it pt v i c st sf
  | .struct n fs =>
    match resolveFields it pt fs with
    | (fs', u) =>
      let u0 := if (lookupTable it n).isNone ∧ n ≠ "" then [n] else []
      (.struct n fs', u0 ++ u)

/-- Field-by-field resolution inside a `Struct`. -/
def resolveFields (it : List (String × Base)) (pt : List String) :
    FieldList → FieldList × List String
  | .fnil => (.fnil, [])
  | .fcons t n e rest =>
    match resolveElem it pt e with
    | (e', u1) =>
      match resolveFields it pt rest with
      | (rest', u2) => (.fcons t n e' rest', u1 ++ u2)

end

/-! ## Claim-side descriptions and invariant predicates -/

/-- The single shortest-prefix extension header for type id `t` and payload
length `l` (amended claim C2's description of the encoder output): `fixext*`
for `l ∈ {1,2,4,8,16}`, `ext8` for `l = 0` and other `l < 255`, `ext16` for
`l < 65535`, `ext32` otherwise. -/
def extHeader (t : Int) (l : Nat) : List Nat :=
  if l = 0 then [mext8, 0, byteOfInt8 t]
  else if l = 1 then [mfixext1, byteOfInt8 t]
  else if l = 2 then [mfixext2, byteOfInt8 t]
  else if l = 4 then [mfixext4, byteOfInt8 t]
  else if l = 8 then [mfixext8, byteOfInt8 t]
  else if l = 16 then [mfixext16, byteOfInt8 t]
  else if l < 255 then [mext8, l % 256, byteOfInt8 t]
  else if l < 65535 then [mext16, l / 256 % 256, l % 256, byteOfInt8 t]
  else [mext32, l / 16777216 % 256, l / 65536 % 256, l / 256 % 256,
    l % 256, byteOfInt8 t]

/-- The spurious `fixext` pre-header that `AppendExtension` emits before
the sized header when `l ∈ {1,2,4,8,16}` (empty otherwise). -/
def fixPre (t : Int) (l : Nat) : List Nat :=
  if l = 1 then [mfixext1, byteOfInt8 t]
  else if l = 2 then [mfixext2, byteOfInt8 t]
  else if l = 4 then [mfixext4, byteOfInt8 t]
  else if l = 8 then [mfixext8, byteOfInt8 t]
  else if l = 16 then [mfixext16, byteOfInt8 t]
  else []

/-- The sized (`ext8`/`ext16`/`ext32`) header for length `l`. -/
def sizedHeader (t : Int) (l : Nat) : List Nat :=
  if l < 255 then [mext8, l % 256, byteOfInt8 t]
  else if l < 65535 then [mext16, l / 256 % 256, l % 256, byteOfInt8 t]
  else [mext32, l / 16777216 % 256, l / 65536 % 256, l / 256 % 256,
    l % 256, byteOfInt8 t]

/-- The lead byte of an encoded object. -/
def extLead (b : List Nat) : Nat := nth b 0

/-- The wire type id of an encoded extension object (position of the type
byte per the prefix table, spec section 3.2). -/
def wireExtType (b : List Nat) : Int :=
  if extLead b = mext8 then int8OfByte (nth b 2)
  else if extLead b = mext16 then int8OfByte (nth b 3)
  else if extLead b = mext32 then int8OfByte (nth b 5)
  else int8OfByte (nth b 1)

/-- The payload length of an encoded extension object. -/
def wireExtLen (b : List Nat) : Nat :=
  if extLead b = mfixext1 then 1
  else if extLead b = mfixext2 then 2
  else if extLead b = mfixext4 then 4
  else if extLead b = mfixext8 then 8
  else if extLead b = mfixext16 then 16
  else if extLead b = mext8 then nth b 1
  else if extLead b = mext16 then nth b 1 * 256 + nth b 2
  else nth b 1 * 16777216 + nth b 2 * 65536 + nth b 3 * 256 + nth b 4

/-- The header size (bytes before the payload) of an encoded extension. -/
def wireExtOff (b : List Nat) : Nat :=
  if extLead b = mext8 then 3
  else if extLead b = mext16 then 4
  else if extLead b = mext32 then 6
  else 2

/-- `b` starts with a complete well-formed wire extension object
(spec section 3.2): an extension lead byte and enough bytes for the
header and the declared payload. -/
def wellFormedExt (b : List Nat) : Bool :=
  (extLead b = mfixext1 ∨ extLead b = mfixext2 ∨ extLead b = mfixext4 ∨
    extLead b = mfixext8 ∨ extLead b = mfixext16 ∨ extLead b = mext8 ∨
    extLead b = mext16 ∨ extLead b = mext32) ∧
  wireExtOff b + wireExtLen b ≤ b.length

/-- The declaration shapes recorded by pass 1 (`GetTypeSpecs`). -/
def recordedShape : TExpr → Bool
  | .structType _ => true
  | .ident _ => true
  | .arrayType _ _ => true
  | .starExpr _ => true
  | .mapType _ _ => true
  | _ => false

/-- The outer kind pass 1 records for a declaration, as the amended claim
C4 describes it: records map to `IDENT`; an alias maps through `pullIdent`;
an array or slice whose element is the identifier `byte` maps to `Bytes`
(the pass does not look at the length, so `[N]byte` behaves like `[]byte`);
other slices/arrays/pointers/maps map to `IDENT`. -/
def outerKindSpec : TExpr → Base
  | .structType _ => .IDENT
  | .ident n => pullIdent n
  | .arrayType _ elt => if isIdentByte elt then .Bytes else .IDENT
  | .starExpr _ => .IDENT
  | .mapType _ _ => .IDENT
  | _ => .IDENT

/-- `n` is a known alias of a non-`IDENT` base in `identTable`. -/
def knownAlias (it : List (String × Base)) (n : String) : Bool :=
  match lookupTable it n with
  | some tp => decide (tp ≠ .IDENT)
  | none => false

/-- The resolver's rewrite condition on an identifier: known, reduces to a
real base kind, and not owned by the code generator. -/
def rewritable (it : List (String × Base)) (pt : List String) (n : String) :
    Bool :=
  knownAlias it n && !(pt.contains n)

mutual
/-- `true` when the tree contains, on the resolver's walk (through `Ptr`,
`Slice`, `Map` values and `Struct` fields, but not `Array` elements), a
`Base` node with `Value = IDENT` whose identifier satisfies the rewrite
condition. -/
def hasOffender (it : List (String × Base)) (pt : List String) :
    Elem → Bool
  | .ptr v => hasOffender it pt v
  | .slice v => hasOffender it pt v
  | .array _ _ => false
  | .map v => hasOffender it pt v
  | .base v i _ _ _ => decide (v = .IDENT) && rewritable it pt i
  | .struct _ fs => hasOffenderF it pt fs
/-- See `hasOffender`. -/
def hasOffenderF (it : List (String × Base)) (pt : List String) :
    FieldList → Bool
  | .fnil => false
  | .fcons _ _ e rest => hasOffender it pt e || hasOffenderF it pt rest
end

/-- Top constructor test: is the element a `Ptr`? -/
def isPtrE : Elem → Bool
  | .ptr _ => true
  | _ => false

/-- Top constructor test: is the type expression a `StarExpr`? -/
def isStarT : TExpr → Bool
  | .starExpr _ => true
  | _ => false

mutual
/-- No `Ptr` node's value is itself a `Ptr`, anywhere in the tree. -/
def noPtrPtr : Elem → Bool
  | .ptr v => !isPtrE v && noPtrPtr v
  | .slice v => noPtrPtr v
  | .array _ v => noPtrPtr v
  | .map v => noPtrPtr v
  | .struct _ fs => noPtrPtrF fs
  | .base _ _ _ _ _ => true
/-- See `noPtrPtr`. -/
def noPtrPtrF : FieldList → Bool
  | .fnil => true
  | .fcons _ _ e rest => noPtrPtr e && noPtrPtrF rest
end

mutual
/-- The type expression contains no immediately nested pointer (`**T`)
anywhere that `parseExpr` translates. -/
def noStarStar : TExpr → Bool
  | .starExpr (.starExpr _) => false
  | .starExpr x => noStarStar x
  | .arrayType _ e => noStarStar e
  | .mapType _ v => noStarStar v
  | .structType fs => noStarStarF fs
  | .selectorExpr _ _ => true
  | .ident _ => true
  | .interfaceType _ => true
/-- See `noStarStar`. -/
def noStarStarF : Fields → Bool
  | .nil => true
  | .cons _ typ _ rest => noStarStar typ && noStarStarF rest
end

/-! ## Helper lemmas -/

theorem int8_roundtrip (t : Int) (h1 : -128 ≤ t) (h2 : t < 128) :
    int8OfByte (byteOfInt8 t) = t := by
  simp only [byteOfInt8, int8OfByte]
  split <;> omega

theorem listCopy_exact (hd d : List Nat) :
    listCopy (hd ++ List.replicate d.length 0) hd.length d = hd ++ d := by
  unfold listCopy
  rw [List.take_left]
  have h2 : (hd ++ List.replicate d.length 0).drop (hd.length + d.length) = [] := by
    apply List.drop_eq_nil_of_le
    simp
  rw [h2, List.append_nil]

theorem listCopy_take (hd rest d : List Nat) :
    (listCopy (hd ++ rest) hd.length d).take (hd.length + d.length) = hd ++ d := by
  unfold listCopy
  rw [List.take_left]
  have hlen : hd.length + d.length = (hd ++ d).length := by simp
  rw [hlen, List.take_left]

theorem writeExtension_eq (t : Int) (d : List Nat) :
    writeExtension [] t d = extHeader t d.length ++ d := by
  by_cases h0 : d.length = 0
  · obtain rfl : d = [] := List.length_eq_zero.mp h0
    rfl
  by_cases h1 : d.length = 1
  · simp only [writeExtension, extHeader, requireW, if_neg h0, if_pos h1,
      List.nil_append]
    exact listCopy_exact _ _
  by_cases h2 : d.length = 2
  · simp only [writeExtension, extHeader, requireW, if_neg h0, if_neg h1,
      if_pos h2, List.nil_append]
    exact listCopy_exact _ _
  by_cases h4 : d.length = 4
  · simp only [writeExtension, extHeader, requireW, if_neg h0, if_neg h1,
      if_neg h2, if_pos h4, List.nil_append]
    exact listCopy_exact _ _
  by_cases h8 : d.length = 8
  · simp only [writeExtension, extHeader, requireW, if_neg h0, if_neg h1,
      if_neg h2, if_neg h4, if_pos h8, List.nil_append]
    exact listCopy_exact _ _
  by_cases h16 : d.length = 16
  · simp only [writeExtension, extHeader, requireW, if_neg h0, if_neg h1,
      if_neg h2, if_neg h4, if_neg h8, if_pos h16, List.nil_append]
    exact listCopy_exact _ _
  by_cases h255 : d.length < 255
  · simp only [writeExtension, extHeader, requireW, if_neg h0, if_neg h1,
      if_neg h2, if_neg h4, if_neg h8, if_neg h16, if_pos h255, List.nil_append]
    exact listCopy_exact _ _
  by_cases h65535 : d.length < 65535
  · simp only [writeExtension, extHeader, requireW, if_neg h0, if_neg h1,
      if_neg h2, if_neg h4, if_neg h8, if_neg h16, if_neg h255, if_pos h65535,
      List.nil_append]
    exact listCopy_exact _ _
  · simp only [writeExtension, extHeader, requireW, if_neg h0, if_neg h1,
      if_neg h2, if_neg h4, if_neg h8, if_neg h16, if_neg h255, if_neg h65535,
      List.nil_append]
    exact listCopy_exact _ _

theorem appendExtension_eq (t : Int) (d : List Nat) :
    appendExtension [] t d = fixPre t d.length ++ sizedHeader t d.length ++ d := by
  by_cases h0 : d.length = 0
  · obtain rfl : d = [] := List.length_eq_zero.mp h0
    rfl
  by_cases h1 : d.length = 1
  · have hlt : d.length < 255 := by omega
    simp only [appendExtension, ensureB, extensionPrefixSize, fixPre,
      sizedHeader, if_pos hlt, if_neg h0, if_pos h1, List.nil_append, List.replicate_add]
    exact listCopy_take
      ([mfixext1, byteOfInt8 t] ++ [mext8, d.length % 256, byteOfInt8 t])
      (0 :: List.replicate d.length 0) d
  by_cases h2 : d.length = 2
  · have hlt : d.length < 255 := by omega
    simp only [appendExtension, ensureB, extensionPrefixSize, fixPre,
      sizedHeader, if_pos hlt, if_neg h0, if_neg h1, if_pos h2, List.nil_append,
      List.replicate_add]
    exact listCopy_take
      ([mfixext2, byteOfInt8 t] ++ [mext8, d.length % 256, byteOfInt8 t])
      (0 :: List.replicate d.length 0) d
  by_cases h4 : d.length = 4
  · have hlt : d.length < 255 := by omega
    simp only [appendExtension, ensureB, extensionPrefixSize, fixPre,
      sizedHeader, if_pos hlt, if_neg h0, if_neg h1, if_neg h2, if_pos h4,
      List.nil_append, List.replicate_add]
    exact listCopy_take
      ([mfixext4, byteOfInt8 t] ++ [mext8, d.length % 256, byteOfInt8 t])
      (0 :: List.replicate d.length 0) d
  by_cases h8 : d.length = 8
  · have hlt : d.length < 255 := by omega
    simp only [appendExtension, ensureB, extensionPrefixSize, fixPre,
      sizedHeader, if_pos hlt, if_neg h0, if_neg h1, if_neg h2, if_neg h4, if_pos h8,
      List.nil_append, List.replicate_add]
    exact listCopy_take
      ([mfixext8, byteOfInt8 t] ++ [mext8, d.length % 256, byteOfInt8 t])
      (0 :: List.replicate d.length 0) d
  by_cases h16 : d.length = 16
  · have hlt : d.length < 255 := by omega
    simp only [appendExtension, ensureB, extensionPrefixSize, fixPre,
      sizedHeader, if_pos hlt, if_neg h0, if_neg h1, if_neg h2, if_neg h4, if_neg h8,
      if_pos h16, List.nil_append, List.replicate_add]
    exact listCopy_take
      ([mfixext16, byteOfInt8 t] ++ [mext8, d.length % 256, byteOfInt8 t])
      (0 :: List.replicate d.length 0) d
  by_cases h255 : d.length < 255
  · simp only [appendExtension, ensureB, extensionPrefixSize, fixPre,
      sizedHeader, if_neg h0, if_neg h1, if_neg h2, if_neg h4, if_neg h8,
      if_neg h16, if_pos h255, List.nil_append, List.replicate_add]
    exact listCopy_take [mext8, d.length % 256, byteOfInt8 t]
      (0 :: 0 :: 0 :: List.replicate d.length 0) d
  by_cases h65535 : d.length < 65535
  · simp only [appendExtension, ensureB, extensionPrefixSize, fixPre,
      sizedHeader, if_neg h0, if_neg h1, if_neg h2, if_neg h4, if_neg h8,
      if_neg h16, if_neg h255, if_pos h65535, List.nil_append,
      List.replicate_add]
    exact listCopy_take
      [mext16, d.length / 256 % 256, d.length % 256, byteOfInt8 t]
      (0 :: 0 :: List.replicate d.length 0) d
  · simp only [appendExtension, ensureB, extensionPrefixSize, fixPre,
      sizedHeader, if_neg h0, if_neg h1, if_neg h2, if_neg h4, if_neg h8,
      if_neg h16, if_neg h255, if_neg h65535, List.nil_append,
      List.replicate_add]
    exact listCopy_take
      [mext32, d.length / 16777216 % 256, d.length / 65536 % 256,
        d.length / 256 % 256, d.length % 256, byteOfInt8 t]
      (List.replicate d.length 0) d

theorem readExtensionBytes_header (t : Int) (d : List Nat) (ht1 : -128 ≤ t)
    (ht2 : t < 128) (hlen : d.length < 4294967296) :
    readExtensionBytes (extHeader t d.length ++ d) t = .ok (d, []) := by
  have hrt : int8OfByte (byteOfInt8 t) = t := int8_roundtrip t ht1 ht2
  by_cases h0 : d.length = 0
  · obtain rfl : d = [] := List.length_eq_zero.mp h0
    rfl
  by_cases h1 : d.length = 1
  · have htake : d.take 1 = d := List.take_of_length_le (by omega)
    have hdrop : d.drop 1 = [] := List.drop_eq_nil_of_le (by omega)
    simp [extHeader, h1, readExtensionBytes, readExtensionBytes.readExtFin,
      nth, hrt, htake, hdrop, mfixext1, mfixext2, mfixext4, mfixext8,
      mfixext16, mext8, mext16, mext32]
  by_cases h2 : d.length = 2
  · have htake : d.take 2 = d := List.take_of_length_le (by omega)
    have hdrop : d.drop 2 = [] := List.drop_eq_nil_of_le (by omega)
    simp [extHeader, h1, h2, readExtensionBytes, readExtensionBytes.readExtFin,
      nth, hrt, htake, hdrop, mfixext1, mfixext2, mfixext4, mfixext8,
      mfixext16, mext8, mext16, mext32]
  by_cases h4 : d.length = 4
  · have htake : d.take 4 = d := List.take_of_length_le (by omega)
    have hdrop : d.drop 4 = [] := List.drop_eq_nil_of_le (by omega)
    simp [extHeader, h1, h2, h4, readExtensionBytes,
      readExtensionBytes.readExtFin, nth, hrt, htake, hdrop, mfixext1,
      mfixext2, mfixext4, mfixext8, mfixext16, mext8, mext16, mext32]
  by_cases h8 : d.length = 8
  · have htake : d.take 8 = d := List.take_of_length_le (by omega)
    have hdrop : d.drop 8 = [] := List.drop_eq_nil_of_le (by omega)
    simp [extHeader, h1, h2, h4, h8, readExtensionBytes,
      readExtensionBytes.readExtFin, nth, hrt, htake, hdrop, mfixext1,
      mfixext2, mfixext4, mfixext8, mfixext16, mext8, mext16, mext32]
  by_cases h16 : d.length = 16
  · have htake : d.take 16 = d := List.take_of_length_le (by omega)
    have hdrop : d.drop 16 = [] := List.drop_eq_nil_of_le (by omega)
    simp [extHeader, h1, h2, h4, h8, h16, readExtensionBytes,
      readExtensionBytes.readExtFin, nth, hrt, htake, hdrop, mfixext1,
      mfixext2, mfixext4, mfixext8, mfixext16, mext8, mext16, mext32]
  by_cases h255 : d.length < 255
  · have hmod : d.length % 256 = d.length := Nat.mod_eq_of_lt (by omega)
    have htake : d.take d.length = d := List.take_length d
    have hdrop : ∀ a b c : Nat, (a :: b :: c :: d).drop (3 + d.length) = [] :=
      fun a b c => List.drop_eq_nil_of_le (by simp; omega)
    have hg : ¬(d.length + 1 + 1 + 1 < 3) := by omega
    simp [extHeader, if_neg h0, if_neg h1, if_neg h2, if_neg h4, if_neg h8,
      if_neg h16, if_pos h255, readExtensionBytes,
      readExtensionBytes.readExtFin, nth, hrt, hmod, htake, hdrop, h0, hg,
      mfixext1, mfixext2, mfixext4, mfixext8, mfixext16, mext8, mext16,
      mext32]
  by_cases h65535 : d.length < 65535
  · have hsz : d.length / 256 % 256 * 256 + d.length % 256 = d.length := by
      omega
    have htake : d.take d.length = d := List.take_length d
    have hdrop : ∀ a b c e : Nat,
        (a :: b :: c :: e :: d).drop (4 + d.length) = [] :=
      fun a b c e => List.drop_eq_nil_of_le (by simp; omega)
    have hg : ¬(d.length + 1 + 1 + 1 + 1 < 3) := by omega
    simp [extHeader, if_neg h0, if_neg h1, if_neg h2, if_neg h4, if_neg h8,
      if_neg h16, if_neg h255, if_pos h65535, readExtensionBytes,
      readExtensionBytes.readExtFin, nth, hrt, hsz, htake, hdrop, h0, hg,
      mfixext1, mfixext2, mfixext4, mfixext8, mfixext16, mext8, mext16,
      mext32]
  · have hsz : d.length / 16777216 % 256 * 16777216 +
        d.length / 65536 % 256 * 65536 + d.length / 256 % 256 * 256 +
        d.length % 256 = d.length := by omega
    have hg6 : ¬(d.length + 1 + 1 + 1 + 1 + 1 + 1 < 6) := by omega
    have htake : d.take d.length = d := List.take_length d
    have hdrop : ∀ a b c e f g : Nat,
        (a :: b :: c :: e :: f :: g :: d).drop (6 + d.length) = [] :=
      fun a b c e f g => List.drop_eq_nil_of_le (by simp; omega)
    have hg : ¬(d.length + 1 + 1 + 1 + 1 + 1 + 1 < 3) := by omega
    simp [extHeader, if_neg h0, if_neg h1, if_neg h2, if_neg h4, if_neg h8,
      if_neg h16, if_neg h255, if_neg h65535, readExtensionBytes,
      readExtensionBytes.readExtFin, nth, hrt, hsz, htake, hdrop, h0, hg,
      hg6, mfixext1, mfixext2, mfixext4, mfixext8, mfixext16, mext8, mext16,
      mext32]

theorem readExtension_header (t : Int) (d : List Nat) (ht1 : -128 ≤ t)
    (ht2 : t < 128) (hlen : d.length < 4294967296) :
    readExtension (extHeader t d.length ++ d) t = .ok (d, []) := by
  have hrt : int8OfByte (byteOfInt8 t) = t := int8_roundtrip t ht1 ht2
  by_cases h0 : d.length = 0
  · obtain rfl : d = [] := List.length_eq_zero.mp h0
    simp [extHeader, readExtension, peekR, readExtSizedTail, nth, hrt,
      mfixext1, mfixext2, mfixext4, mfixext8, mfixext16, mext8, mext16,
      mext32]
  by_cases h1 : d.length = 1
  · have htake : d.take 1 = d := List.take_of_length_le (by omega)
    have hdrop : d.drop 1 = [] := List.drop_eq_nil_of_le (by omega)
    simp [extHeader, h1, readExtension, peekR, readExtFixTail, nth, hrt,
      htake, hdrop, mfixext1, mfixext2, mfixext4, mfixext8, mfixext16,
      mext8, mext16, mext32]
  by_cases h2 : d.length = 2
  · have htake : d.take 2 = d := List.take_of_length_le (by omega)
    have hdrop : d.drop 2 = [] := List.drop_eq_nil_of_le (by omega)
    simp [extHeader, h1, h2, readExtension, peekR, readExtFixTail, nth, hrt,
      htake, hdrop, mfixext1, mfixext2, mfixext4, mfixext8, mfixext16,
      mext8, mext16, mext32]
  by_cases h4 : d.length = 4
  · have htake : d.take 4 = d := List.take_of_length_le (by omega)
    have hdrop : d.drop 4 = [] := List.drop_eq_nil_of_le (by omega)
    simp [extHeader, h1, h2, h4, readExtension, peekR, readExtFixTail, nth,
      hrt, htake, hdrop, mfixext1, mfixext2, mfixext4, mfixext8, mfixext16,
      mext8, mext16, mext32]
  by_cases h8 : d.length = 8
  · have htake : d.take 8 = d := List.take_of_length_le (by omega)
    have hdrop : d.drop 8 = [] := List.drop_eq_nil_of_le (by omega)
    simp [extHeader, h1, h2, h4, h8, readExtension, peekR, readExtFixTail,
      nth, hrt, htake, hdrop, mfixext1, mfixext2, mfixext4, mfixext8,
      mfixext16, mext8, mext16, mext32]
  by_cases h16 : d.length = 16
  · have htake : d.take 16 = d := List.take_of_length_le (by omega)
    have hdrop : d.drop 16 = [] := List.drop_eq_nil_of_le (by omega)
    simp [extHeader, h1, h2, h4, h8, h16, readExtension, peekR,
      readExtFixTail, nth, hrt, htake, hdrop, mfixext1, mfixext2, mfixext4,
      mfixext8, mfixext16, mext8, mext16, mext32]
  by_cases h255 : d.length < 255
  · have hmod : d.length % 256 = d.length := Nat.mod_eq_of_lt (by omega)
    have htake : d.take d.length = d := List.take_length d
    have hdrop : ∀ a b c : Nat, (a :: b :: c :: d).drop (d.length + 3) = [] :=
      fun a b c => List.drop_eq_nil_of_le (by simp)
    have hg : ¬(d.length + 1 + 1 + 1 < d.length + 3) := by omega
    have hga : ¬(d.length + 1 + 1 + 1 < 2) := by omega
    have hgb : ¬(d.length + 1 + 1 + 1 < 3) := by omega
    simp [extHeader, if_neg h0, if_neg h1, if_neg h2, if_neg h4, if_neg h8,
      if_neg h16, if_pos h255, readExtension, peekR, readExtSizedTail, nth,
      hrt, hmod, htake, hdrop, h0, hg, hga, hgb, mfixext1, mfixext2,
      mfixext4, mfixext8, mfixext16, mext8, mext16, mext32]
  by_cases h65535 : d.length < 65535
  · have hsz : d.length / 256 % 256 * 256 + d.length % 256 = d.length := by
      omega
    have htake : d.take d.length = d := List.take_length d
    have hdrop : ∀ a b c e : Nat,
        (a :: b :: c :: e :: d).drop (d.length + 4) = [] :=
      fun a b c e => List.drop_eq_nil_of_le (by simp)
    have hg : ¬(d.length + 1 + 1 + 1 + 1 < d.length + 4) := by omega
    have hga : ¬(d.length + 1 + 1 + 1 + 1 < 2) := by omega
    have hgb : ¬(d.length + 1 + 1 + 1 + 1 < 4) := by omega
    simp [extHeader, if_neg h0, if_neg h1, if_neg h2, if_neg h4, if_neg h8,
      if_neg h16, if_neg h255, if_pos h65535, readExtension, peekR,
      readExtSizedTail, nth, hrt, hsz, htake, hdrop, h0, hg, hga, hgb,
      mfixext1, mfixext2, mfixext4, mfixext8, mfixext16, mext8, mext16,
      mext32]
  · have hsz : d.length / 16777216 % 256 * 16777216 +
        d.length / 65536 % 256 * 65536 + d.length / 256 % 256 * 256 +
        d.length % 256 = d.length := by omega
    have htake : d.take d.length = d := List.take_length d
    have hdrop : ∀ a b c e f g : Nat,
        (a :: b :: c :: e :: f :: g :: d).drop (d.length + 6) = [] :=
      fun a b c e f g => List.drop_eq_nil_of_le (by simp)
    have hg : ¬(d.length + 1 + 1 + 1 + 1 + 1 + 1 < d.length + 6) := by omega
    have hga : ¬(d.length + 1 + 1 + 1 + 1 + 1 + 1 < 2) := by omega
    have hgb : ¬(d.length + 1 + 1 + 1 + 1 + 1 + 1 < 6) := by omega
    simp [extHeader, if_neg h0, if_neg h1, if_neg h2, if_neg h4, if_neg h8,
      if_neg h16, if_neg h255, if_neg h65535, readExtension, peekR,
      readExtSizedTail, nth, hrt, hsz, htake, hdrop, h0, hg, hga, hgb,
      mfixext1, mfixext2, mfixext4, mfixext8, mfixext16, mext8, mext16,
      mext32]

theorem nth_take (l : List Nat) (k i : Nat) (h : i < k) :
    nth (l.take k) i = nth l i := by
  induction l generalizing k i with
  | nil => simp
  | cons x xs ih =>
    cases k with
    | zero => omega
    | succ k' =>
      cases i with
      | zero => simp [nth]
      | succ i' => simpa [nth] using ih k' i' (by omega)

theorem wellFormedExt_length (b : List Nat) (hwf : wellFormedExt b = true) :
    3 ≤ b.length := by
  have hwf' := of_decide_eq_true hwf
  obtain ⟨hd, hb⟩ := hwf'
  rcases hd with h | h | h | h | h | h | h | h <;>
    simp [wireExtOff, wireExtLen, h, mfixext1, mfixext2, mfixext4,
      mfixext8, mfixext16, mext8, mext16, mext32] at hb <;>
    omega

theorem ext_mismatch_cases (b : List Nat) (etyp : Int)
    (hwf : wellFormedExt b = true) (hne : wireExtType b ≠ etyp) :
    (¬(extLead b = mext8 ∧ nth b 1 = 0) →
      readExtensionBytes b etyp =
        .error (.extensionTypeError (wireExtType b) etyp)) ∧
    ((extLead b = mext8 ∧ nth b 1 = 0) →
      readExtensionBytes b etyp = .ok ([], b.drop 3)) ∧
    readExtension b etyp = .error (.extensionTypeError (wireExtType b) etyp) := by
  have hlen := wellFormedExt_length b hwf
  have hwf' := of_decide_eq_true hwf
  obtain ⟨hd, hb⟩ := hwf'
  rcases b with _ | ⟨b0, b⟩
  · simp at hlen
  rcases b with _ | ⟨b1, b⟩
  · simp at hlen
  rcases b with _ | ⟨b2, rest⟩
  · simp at hlen
  have hg3 : ¬(rest.length + 1 + 1 + 1 < 3) := by omega
  have hg2 : ¬(rest.length + 1 + 1 + 1 < 2) := by omega
  rcases hd with h | h | h | h | h | h | h | h <;>
      (simp only [extLead, nth] at h; subst h) <;>
      simp only [wireExtType, extLead, nth, mfixext1, mfixext2, mfixext4,
        mfixext8, mfixext16, mext8, mext16, mext32] at hne <;>
      norm_num at hne <;>
      refine ⟨fun hskip => ?_, fun hz => ?_, ?_⟩
  case _ => -- fixext1, bytes
    simp [readExtensionBytes, readExtensionBytes.readExtFin, wireExtType,
      extLead, nth, hne, hg3, mfixext1, mfixext2, mfixext4, mfixext8,
      mfixext16, mext8, mext16, mext32]
  case _ => -- fixext1, mext8 branch vacuous
    simp [extLead, nth, mfixext1, mext8] at hz
  case _ => -- fixext1, stream
    simp [readExtension, peekR, wireExtType, extLead, nth, hne, hg2,
      mfixext1, mfixext2, mfixext4, mfixext8, mfixext16, mext8, mext16,
      mext32]
  case _ =>
    simp [readExtensionBytes, readExtensionBytes.readExtFin, wireExtType,
      extLead, nth, hne, hg3, mfixext1, mfixext2, mfixext4, mfixext8,
      mfixext16, mext8, mext16, mext32]
  case _ =>
    simp [extLead, nth, mfixext2, mext8] at hz
  case _ =>
    simp [readExtension, peekR, wireExtType, extLead, nth, hne, hg2,
      mfixext1, mfixext2, mfixext4, mfixext8, mfixext16, mext8, mext16,
      mext32]
  case _ =>
    simp [readExtensionBytes, readExtensionBytes.readExtFin, wireExtType,
      extLead, nth, hne, hg3, mfixext1, mfixext2, mfixext4, mfixext8,
      mfixext16, mext8, mext16, mext32]
  case _ =>
    simp [extLead, nth, mfixext4, mext8] at hz
  case _ =>
    simp [readExtension, peekR, wireExtType, extLead, nth, hne, hg2,
      mfixext1, mfixext2, mfixext4, mfixext8, mfixext16, mext8, mext16,
      mext32]
  case _ =>
    simp [readExtensionBytes, readExtensionBytes.readExtFin, wireExtType,
      extLead, nth, hne, hg3, mfixext1, mfixext2, mfixext4, mfixext8,
      mfixext16, mext8, mext16, mext32]
  case _ =>
    simp [extLead, nth, mfixext8, mext8] at hz
  case _ =>
    simp [readExtension, peekR, wireExtType, extLead, nth, hne, hg2,
      mfixext1, mfixext2, mfixext4, mfixext8, mfixext16, mext8, mext16,
      mext32]
  case _ =>
    simp [readExtensionBytes, readExtensionBytes.readExtFin, wireExtType,
      extLead, nth, hne, hg3, mfixext1, mfixext2, mfixext4, mfixext8,
      mfixext16, mext8, mext16, mext32]
  case _ =>
    simp [extLead, nth, mfixext16, mext8] at hz
  case _ =>
    simp [readExtension, peekR, wireExtType, extLead, nth, hne, hg2,
      mfixext1, mfixext2, mfixext4, mfixext8, mfixext16, mext8, mext16,
      mext32]
  case _ => -- mext8, bytes, non-zero length byte
    have hb1 : ¬(b1 = 0) := by
      intro h'
      exact hskip ⟨by simp [extLead, nth], by simp [nth, h']⟩
    simp [readExtensionBytes, readExtensionBytes.readExtFin, wireExtType,
      extLead, nth, hne, hg3, hb1, mfixext1, mfixext2, mfixext4, mfixext8,
      mfixext16, mext8, mext16, mext32]
  case _ => -- mext8, zero length byte: unmarshal with empty slice
    obtain ⟨-, hz2⟩ := hz
    simp only [nth] at hz2
    subst hz2
    simp [readExtensionBytes, nth, mfixext1, mfixext2, mfixext4, mfixext8,
      mfixext16, mext8, mext16, mext32]
  case _ => -- mext8, stream
    simp [readExtension, peekR, wireExtType, extLead, nth, hne, hg2, hg3,
      mfixext1, mfixext2, mfixext4, mfixext8, mfixext16, mext8, mext16,
      mext32]
  case _ => -- mext16, bytes
    simp only [wireExtOff, wireExtLen, extLead, nth, mfixext1, mfixext2,
      mfixext4, mfixext8, mfixext16, mext8, mext16, mext32] at hb
    norm_num at hb
    have hg4 : ¬(rest.length + 1 + 1 + 1 < 4) := by omega
    simp [readExtensionBytes, readExtensionBytes.readExtFin, wireExtType,
      extLead, nth, hne, hg3, hg4, mfixext1, mfixext2, mfixext4, mfixext8,
      mfixext16, mext8, mext16, mext32]
  case _ =>
    simp [extLead, nth, mext16, mext8] at hz
  case _ => -- mext16, stream
    simp only [wireExtOff, wireExtLen, extLead, nth, mfixext1, mfixext2,
      mfixext4, mfixext8, mfixext16, mext8, mext16, mext32] at hb
    norm_num at hb
    have hg4 : ¬(rest.length + 1 + 1 + 1 < 4) := by omega
    have hnth : nth (List.take 1 rest) 0 = nth rest 0 :=
      nth_take rest 1 0 (by omega)
    simp [readExtension, peekR, wireExtType, extLead, nth, hne, hg2, hg4,
      hnth, mfixext1, mfixext2, mfixext4, mfixext8, mfixext16, mext8,
      mext16, mext32]
  case _ => -- mext32, bytes
    simp only [wireExtOff, wireExtLen, extLead, nth, mfixext1, mfixext2,
      mfixext4, mfixext8, mfixext16, mext8, mext16, mext32] at hb
    norm_num at hb
    have hg6 : ¬(rest.length + 1 + 1 + 1 < 6) := by omega
    simp [readExtensionBytes, readExtensionBytes.readExtFin, wireExtType,
      extLead, nth, hne, hg3, hg6, mfixext1, mfixext2, mfixext4, mfixext8,
      mfixext16, mext8, mext16, mext32]
  case _ =>
    simp [extLead, nth, mext32, mext8] at hz
  case _ => -- mext32, stream
    simp only [wireExtOff, wireExtLen, extLead, nth, mfixext1, mfixext2,
      mfixext4, mfixext8, mfixext16, mext8, mext16, mext32] at hb
    norm_num at hb
    have hg6 : ¬(rest.length + 1 + 1 + 1 < 6) := by omega
    have hnth : nth (List.take 3 rest) 2 = nth rest 2 :=
      nth_take rest 3 2 (by omega)
    simp [readExtension, peekR, wireExtType, extLead, nth, hne, hg2, hg6,
      hnth, mfixext1, mfixext2, mfixext4, mfixext8, mfixext16, mext8,
      mext16, mext32]

theorem all_append_bool (p : String → Bool) (u1 u2 : List String) :
    (u1 ++ u2).all p = (u1.all p && u2.all p) := List.all_append

mutual

theorem resolveElem_sound (it : List (String × Base)) (pt : List String) :
    (e : Elem) → hasOffender it pt (resolveElem it pt e).1 = false ∧
      ((resolveElem it pt e).2).all (fun n => !knownAlias it n) = true
  | .ptr v => by
    have ih := resolveElem_sound it pt v
    simpa [resolveElem, hasOffender] using ih
  | .slice v => by
    have ih := resolveElem_sound it pt v
    simpa [resolveElem, hasOffender] using ih
  | .array s v => by
    simp [resolveElem, hasOffender]
  | .map v => by
    have ih := resolveElem_sound it pt v
    simpa [resolveElem, hasOffender] using ih
  | .base v i c st sf => by
    simp only [resolveElem, resolveBase]
    by_cases hv : v = .IDENT
    · subst hv
      simp only [if_pos rfl]
      rcases hL : lookupTable it i with _ | tp
      · simp [hasOffender, rewritable, knownAlias, hL]
      · by_cases hc : i ∈ pt
        · simp [hasOffender, rewritable, knownAlias, hL, hc]
        · by_cases ht : tp = .IDENT
          · subst ht
            simp [hasOffender, rewritable, knownAlias, hL, hc]
          · simp [hasOffender, rewritable, knownAlias, hL, hc, ht]
    · simp [hasOffender, if_neg hv, hv]
  | .struct n fs => by
    have ih := resolveFields_sound it pt fs
    have ihA := ih.1
    have ihB := ih.2
    simp [knownAlias] at ihB
    rcases hL : lookupTable it n with _ | tp <;>
      by_cases hn : n = "" <;>
      simp [resolveElem, hasOffender, hL, hn, ihA, knownAlias,
        all_append_bool] <;>
      exact ihB

theorem resolveFields_sound (it : List (String × Base)) (pt : List String) :
    (fs : FieldList) →
      hasOffenderF it pt (resolveFields it pt fs).1 = false ∧
      ((resolveFields it pt fs).2).all (fun n => !knownAlias it n) = true
  | .fnil => by simp [resolveFields, hasOffenderF]
  | .fcons t n e rest => by
    have ih1 := resolveElem_sound it pt e
    have ih2 := resolveFields_sound it pt rest
    have ih1B := ih1.2
    have ih2B := ih2.2
    simp [knownAlias] at ih1B ih2B
    simp only [resolveFields]
    simp [hasOffenderF, ih1.1, ih2.1, knownAlias, all_append_bool]
    exact ⟨ih1B, ih2B⟩

end

/-- The resolver leaves a `Base{IDENT}` node whose identifier is known and
processed untouched and reports nothing for it. -/
theorem resolveBase_processed (it : List (String × Base)) (pt : List String)
    (i : String) (c : Bool) (st sf : String)
    (hk : (lookupTable it i).isSome = true) (hp : pt.contains i = true) :
    resolveElem it pt (.base .IDENT i c st sf) =
      (.base .IDENT i c st sf, []) := by
  have hp' : i ∈ pt := by simpa using hp
  rcases hL : lookupTable it i with _ | tp
  · rw [hL] at hk
    simp at hk
  · simp [resolveElem, resolveBase, hL, hp']

theorem noPtrPtrF_fappend : (a b : FieldList) →
    noPtrPtrF (fappend a b) = (noPtrPtrF a && noPtrPtrF b)
  | .fnil, b => by simp [fappend, noPtrPtrF]
  | .fcons t n e rest, b => by
    simp [fappend, noPtrPtrF, noPtrPtrF_fappend rest b, Bool.and_assoc]

theorem multiFields_noPtrPtr (nms : List String) (e : Elem)
    (he : noPtrPtr e = true) : noPtrPtrF (multiFields nms e) = true := by
  induction nms with
  | nil => simp [multiFields, noPtrPtrF]
  | cons nm rest ih => simp [multiFields, noPtrPtrF, he, ih]

theorem mkFinalField_noPtrPtr (nm ftag : String) (flagExt : Bool)
    (parsed : Option Elem)
    (hp : ∀ e, parsed = some e → noPtrPtr e = true) :
    noPtrPtrF (mkFinalField nm ftag flagExt parsed) = true := by
  by_cases hskip : ftag ≠ "" ∧ ftag = "-"
  · simp [mkFinalField, hskip, noPtrPtrF]
  · rcases parsed with _ | e
    · simp [mkFinalField, hskip, noPtrPtrF]
    · have he := hp e rfl
      cases hf : flagExt
      · simp [mkFinalField, hskip, noPtrPtrF, he]
      · rcases e with v | v | ⟨s, v⟩ | v | ⟨n2, fs⟩ | ⟨bv, bi, bc, bst, bsf⟩
        · rcases v with v' | v' | ⟨s', v'⟩ | v' | ⟨n3, fs'⟩ |
            ⟨b1, b2, b3, b4, b5⟩ <;>
            simp [mkFinalField, hskip, noPtrPtrF, noPtrPtr, isPtrE]
        all_goals
          simp [mkFinalField, hskip, noPtrPtrF, noPtrPtr, isPtrE, he]

theorem mkNamedField_noPtrPtr (nm : String) (tag : Option String)
    (parsed : Option Elem)
    (hp : ∀ e, parsed = some e → noPtrPtr e = true) :
    noPtrPtrF (mkNamedField nm tag parsed) = true := by
  rcases tag with _ | body
  · exact mkFinalField_noPtrPtr nm "" false parsed hp
  · simp only [mkNamedField]
    split_ifs <;>
      first
        | exact mkFinalField_noPtrPtr _ _ _ parsed hp
        | simp [noPtrPtrF, noPtrPtr]

theorem parseFieldAux_noPtrPtr (names : List String) (typ : TExpr)
    (tag : Option String) (parsed : Option Elem)
    (hp : ∀ e, parsed = some e → noPtrPtr e = true) :
    noPtrPtrF (parseFieldAux names typ tag parsed) = true := by
  unfold parseFieldAux
  split
  · exact mkNamedField_noPtrPtr _ tag parsed hp
  · split
    · simp [noPtrPtrF]
    · exact mkNamedField_noPtrPtr _ tag parsed hp
  · rcases parsed with _ | e
    · simp [noPtrPtrF]
    · exact multiFields_noPtrPtr _ e (hp e rfl)

mutual

theorem parseExpr_flat : (t : TExpr) → noStarStar t = true →
    ∀ e, parseExpr t = some e →
      noPtrPtr e = true ∧ (isPtrE e = true → isStarT t = true)
  | .ident n => by
    intro _ e he
    simp only [parseExpr, Option.some.injEq] at he
    subst he
    simp [noPtrPtr, isPtrE]
  | .mapType k v => by
    intro h e he
    have hv : noStarStar (.mapType k v) = noStarStar v := rfl
    rcases k with kn | fs | ⟨len, elt⟩ | x | ⟨k2, v2⟩ | ⟨x, sel⟩ | nm
    · simp only [parseExpr] at he
      by_cases hkn : kn = "string"
      · rw [if_pos hkn] at he
        rcases hpe : parseExpr v with _ | inner
        · rw [hpe] at he
          simp at he
        · rw [hpe] at he
          simp only [Option.some.injEq] at he
          subst he
          have ih := parseExpr_flat v (by rw [← hv]; exact h) inner hpe
          simp [noPtrPtr, isPtrE, ih.1]
      · rw [if_neg hkn] at he
        simp at he
    all_goals
      simp only [parseExpr] at he
      simp at he
  | .arrayType len elt => by
    intro h e he
    have hel : noStarStar (.arrayType len elt) = noStarStar elt := rfl
    simp only [parseExpr] at he
    by_cases hbyte : len.isNone = true ∧ isIdentByte elt = true
    · rw [if_pos hbyte] at he
      simp only [Option.some.injEq] at he
      subst he
      simp [noPtrPtr, isPtrE]
    · rw [if_neg hbyte] at he
      rcases hpe : parseExpr elt with _ | els
      · rw [hpe] at he
        exact absurd he (by simp)
      · rw [hpe] at he
        have ih := parseExpr_flat elt (by rw [← hel]; exact h) els hpe
        rcases len with _ | ⟨v0⟩ | ⟨n0⟩ | _
        · simp only [Option.some.injEq] at he
          subst he
          simp [noPtrPtr, isPtrE, ih.1]
        · simp only [Option.some.injEq] at he
          subst he
          simp [noPtrPtr, isPtrE, ih.1]
        · simp only [Option.some.injEq] at he
          subst he
          simp [noPtrPtr, isPtrE, ih.1]
        · exact absurd he (by simp)
  | .starExpr x => by
    intro h e he
    simp only [parseExpr] at he
    rcases hpe : parseExpr x with _ | v
    · rw [hpe] at he
      exact absurd he (by simp)
    · rw [hpe] at he
      simp only [Option.some.injEq] at he
      subst he
      have hxs : isStarT x = false := by
        rcases x with _ | _ | _ | x' | _ | _ | _ <;> simp [isStarT]
        exact absurd h (by simp [noStarStar])
      have hx : noStarStar x = true := by
        rcases x with _ | _ | _ | x' | _ | _ | _ <;>
          simp_all [noStarStar]
      have ih := parseExpr_flat x hx v hpe
      refine ⟨?_, fun _ => by simp [isStarT]⟩
      have hvp : isPtrE v = false := by
        rcases hiv : isPtrE v with _ | _
        · rfl
        · rw [ih.2 hiv] at hxs
          exact absurd hxs (by simp)
      simp [noPtrPtr, hvp, ih.1]
  | .structType fs => by
    intro h e he
    simp only [parseExpr] at he
    rcases hfl : parseFieldList fs with _ | ⟨t1, n1, e1, rest⟩ <;>
      rw [hfl] at he
    · exact absurd he (by simp)
    · simp only [Option.some.injEq] at he
      subst he
      have := parseFieldList_flat fs h
      rw [hfl] at this
      simp [noPtrPtr, isPtrE, this]
  | .selectorExpr x sel => by
    intro _ e he
    rcases x with im | fs | ⟨len, elt⟩ | x' | ⟨k2, v2⟩ | ⟨x2, sel2⟩ | nm
    · simp only [parseExpr] at he
      by_cases ht : sel = "Time" ∧ im = "time"
      · rw [if_pos ht] at he
        simp only [Option.some.injEq] at he
        subst he
        simp [noPtrPtr, isPtrE]
      · rw [if_neg ht] at he
        simp only [Option.some.injEq] at he
        subst he
        simp [noPtrPtr, isPtrE]
    all_goals
      simp only [parseExpr] at he
      simp at he
  | .interfaceType nm => by
    intro _ e he
    simp only [parseExpr] at he
    by_cases hn : nm = 0
    · rw [if_pos hn] at he
      simp only [Option.some.injEq] at he
      subst he
      simp [noPtrPtr, isPtrE]
    · rw [if_neg hn] at he
      exact absurd he (by simp)

theorem parseFieldList_flat : (fs : Fields) → noStarStarF fs = true →
    noPtrPtrF (parseFieldList fs) = true
  | .nil => by
    intro _
    simp [parseFieldList, noPtrPtrF]
  | .cons names typ tag rest => by
    intro h
    have h1 : noStarStar typ = true := by
      have : noStarStarF (.cons names typ tag rest) =
          (noStarStar typ && noStarStarF rest) := rfl
      rw [this] at h
      exact (Bool.and_eq_true_iff.mp h).1
    have h2 : noStarStarF rest = true := by
      have : noStarStarF (.cons names typ tag rest) =
          (noStarStar typ && noStarStarF rest) := rfl
      rw [this] at h
      exact (Bool.and_eq_true_iff.mp h).2
    have hR := parseFieldList_flat rest h2
    have hT := parseFieldAux_noPtrPtr names typ tag (parseExpr typ)
      (fun e he => (parseExpr_flat typ h1 e he).1)
    simp [parseFieldList, noPtrPtrF_fappend, hR, hT]

end

theorem lookupTable_insert_self : (m : List (String × Base)) → ∀ k v,
    lookupTable (insertTable m k v) k = some v
  | [], k, v => by simp [insertTable, lookupTable]
  | (k', v') :: rest, k, v => by
    by_cases h : k' = k <;>
      simp [insertTable, lookupTable, h, lookupTable_insert_self rest k v]

theorem lookupTable_insert_other : (m : List (String × Base)) → ∀ k v k',
    k ≠ k' → lookupTable (insertTable m k v) k' = lookupTable m k'
  | [], k, v, k', h => by simp [insertTable, lookupTable, h]
  | (k0, v0) :: rest, k, v, k', h => by
    by_cases h0 : k0 = k <;>
      simp [insertTable, lookupTable, h0, h,
        lookupTable_insert_other rest k v k' h]

theorem recordIdent_other (m : List (String × Base)) (ts : TypeSpec)
    (k' : String) (h : ts.name ≠ k') :
    lookupTable (recordIdent m ts) k' = lookupTable m k' := by
  rcases hts : ts.typ with nm | fs | ⟨len, elt⟩ | x | ⟨k2, v2⟩ | ⟨x2, s2⟩ | n2 <;>
    simp [recordIdent, hts, lookupTable_insert_other _ _ _ _ h]
  split <;> rw [lookupTable_insert_other _ _ _ _ h]

theorem pass1_preserve : (post : List TypeSpec) →
    ∀ (m : List (String × Base)) (k : String), (∀ u ∈ post, u.name ≠ k) →
    lookupTable (post.foldl recordIdent m) k = lookupTable m k
  | [], m, k, _ => rfl
  | u :: rest, m, k, h => by
    rw [List.foldl_cons, pass1_preserve rest _ k (fun x hx => h x (by simp [hx]))]
    exact recordIdent_other m u k (h u (by simp))

theorem recordIdent_self (m : List (String × Base)) (ts : TypeSpec)
    (h : recordedShape ts.typ = true) :
    lookupTable (recordIdent m ts) ts.name = some (outerKindSpec ts.typ) := by
  rcases hts : ts.typ with nm | fs | ⟨len, elt⟩ | x | ⟨k2, v2⟩ | ⟨x2, s2⟩ | n2 <;>
    simp [recordedShape, hts] at h <;>
    simp [recordIdent, outerKindSpec, hts, lookupTable_insert_self]
  split <;> simp_all [lookupTable_insert_self]

theorem fieldTags_multi (nms : List String) (e : Elem) :
    fieldTags (multiFields nms e) = nms := by
  induction nms with
  | nil => simp [multiFields, fieldTags]
  | cons nm rest ih => simp [multiFields, fieldTags, ih]

theorem appendExtension_eq_write (t : Int) (d : List Nat)
    (hnf : ¬(d.length = 1 ∨ d.length = 2 ∨ d.length = 4 ∨ d.length = 8 ∨
      d.length = 16)) :
    appendExtension [] t d = writeExtension [] t d := by
  rw [writeExtension_eq, appendExtension_eq]
  push_neg at hnf
  obtain ⟨h1, h2, h4, h8, h16⟩ := hnf
  by_cases h0 : d.length = 0
  · simp [fixPre, sizedHeader, extHeader, h0]
  · simp [fixPre, sizedHeader, extHeader, h0, h1, h2, h4, h8, h16]

/-! ## Claim theorems -/

/-- C1 (counterexample): encoding the extension `RawExtension{Type: 10,
Data: [0xAA]}` with `AppendExtension` and decoding the bytes with
`ReadExtensionBytes` into a fresh `RawExtension` (whose `ExtensionType()`
is the zero value `0`) does not succeed: it fails with an
`ExtensionTypeError`, refuting the claim that the round trip succeeds for
every extension and a fresh target. -/
theorem extension_fresh_decode_cex :
    readExtensionBytes (appendExtension [] 10 [170]) 0 =
      .error (.extensionTypeError 10 0) := rfl

/-- C1 (amended): for every extension (int8 type id `t`, payload `d` with
fewer than 2³² bytes), encoding with `Writer.WriteExtension` on a fresh
writer and decoding with `ReadExtensionBytes` or `Reader.ReadExtension`
into a `RawExtension` whose `Type` equals `t` succeeds, consumes the whole
encoding, and hands exactly `d` to `UnmarshalBinary` (so the decoded
payload is bit-equal and the type id matches); `AppendExtension` encodes
identically(and therefore round-trips) whenever `d.length` is not in
`{1,2,4,8,16}`. -/
theorem extension_roundtrip_amended (t : Int) (d : List Nat)
    (ht1 : -128 ≤ t) (ht2 : t < 128) (hlen : d.length < 4294967296) :
    readExtensionBytes (writeExtension [] t d) t = .ok (d, []) ∧
    readExtension (writeExtension [] t d) t = .ok (d, []) ∧
    (¬(d.length = 1 ∨ d.length = 2 ∨ d.length = 4 ∨ d.length = 8 ∨
        d.length = 16) →
      readExtensionBytes (appendExtension [] t d) t = .ok (d, []) ∧
      readExtension (appendExtension [] t d) t = .ok (d, [])) := by
  have hw := writeExtension_eq t d
  refine ⟨?_, ?_, fun hnf => ?_⟩
  · rw [hw]
    exact readExtensionBytes_header t d ht1 ht2 hlen
  · rw [hw]
    exact readExtension_header t d ht1 ht2 hlen
  · rw [appendExtension_eq_write t d hnf, hw]
    exact ⟨readExtensionBytes_header t d ht1 ht2 hlen,
      readExtension_header t d ht1 ht2 hlen⟩

/-- Witness for `extension_roundtrip_amended` at `t = 10`, `d = [1,2,3]`. -/
theorem extension_roundtrip_amended_witness :
    (-128 ≤ (10 : Int) ∧ (10 : Int) < 128 ∧
      ([1, 2, 3] : List Nat).length < 4294967296) ∧
    readExtensionBytes (writeExtension [] 10 [1, 2, 3]) 10 =
      .ok ([1, 2, 3], []) ∧
    readExtensionBytes (appendExtension [] 10 [1, 2, 3]) 10 =
      .ok ([1, 2, 3], []) :=
  ⟨⟨by decide, by decide, by decide⟩,
    (extension_roundtrip_amended 10 [1, 2, 3] (by decide) (by decide)
      (by decide)).1,
    ((extension_roundtrip_amended 10 [1, 2, 3] (by decide) (by decide)
      (by decide)).2.2 (by decide)).1⟩

/-- C2 (counterexample): `AppendExtension` of a 1-byte extension of type 10
emits a `fixext1` header followed by a second, spurious `ext8` header: six
bytes instead of the claimed three (`fixext1`, type, payload). -/
theorem append_double_header_cex :
    appendExtension [] 10 [170] = [212, 10, 199, 1, 10, 170] ∧
    [212, 10, 199, 1, 10, 170] ≠ [mfixext1, 10, 170] :=
  ⟨rfl, by decide⟩

/-- C2 (amended): on a fresh writer, `WriteExtension` emits exactly one
header — `fixext*` for `Len ∈ {1,2,4,8,16}`, `ext8` for `Len = 0` and
other `Len < 255`, `ext16` for `Len < 65535`, `ext32` otherwise — followed
by the payload; `AppendExtension` emits the same single header except for
`Len ∈ {1,2,4,8,16}`, where it emits the `fixext` header and then a
spurious `ext8` header before the payload (note the boundaries: 255 and
65535 themselves already take the next wider prefix). -/
theorem extension_single_header_amended (t : Int) (d : List Nat) :
    writeExtension [] t d = extHeader t d.length ++ d ∧
    appendExtension [] t d =
      fixPre t d.length ++ sizedHeader t d.length ++ d ∧
    (¬(d.length = 1 ∨ d.length = 2 ∨ d.length = 4 ∨ d.length = 8 ∨
        d.length = 16) →
      appendExtension [] t d = extHeader t d.length ++ d) :=
  ⟨writeExtension_eq t d, appendExtension_eq t d,
    fun hnf => by rw [appendExtension_eq_write t d hnf, writeExtension_eq]⟩

/-- Witness for `extension_single_header_amended` at `t = 10`,
`d = [1,2,3]`. -/
theorem extension_single_header_amended_witness :
    writeExtension [] 10 [1, 2, 3] = extHeader 10 3 ++ [1, 2, 3] ∧
    (¬((3 : Nat) = 1 ∨ (3 : Nat) = 2 ∨ (3 : Nat) = 4 ∨ (3 : Nat) = 8 ∨
      (3 : Nat) = 16)) ∧
    appendExtension [] 10 [1, 2, 3] = extHeader 10 3 ++ [1, 2, 3] :=
  ⟨(extension_single_header_amended 10 [1, 2, 3]).1, by decide,
    (extension_single_header_amended 10 [1, 2, 3]).2.2 (by decide)⟩

/-- C3 (counterexample): decoding the zero-length `ext8` object
`c7 00 0a` (wire type 10) with `ReadExtensionBytes` into an extension of
declared type 11 does not return an `ExtensionTypeError`: the `sz == 0`
shortcut returns success before the type check and still invokes
`UnmarshalBinary` with the empty slice. -/
theorem ext8_zero_skip_cex :
    readExtensionBytes [199, 0, 10] 11 = .ok ([], []) ∧
    wireExtType [199, 0, 10] = 10 ∧ (10 : Int) ≠ 11 :=
  ⟨rfl, rfl, by decide⟩

/-- C3 (amended): for every well-formed wire extension whose wire type id
differs from the declared `ExtensionType()` of the target extension, both
decoders return `ExtensionTypeError` without invoking `UnmarshalBinary` —
except that `ReadExtensionBytes` on an `ext8` object with length byte `0`
skips the type check entirely and invokes `UnmarshalBinary` with the empty
payload (`Reader.ReadExtension` checks the type even in that case). -/
theorem ext_mismatch_amended (b : List Nat) (etyp : Int)
    (hwf : wellFormedExt b = true) (hne : wireExtType b ≠ etyp) :
    (¬(extLead b = mext8 ∧ nth b 1 = 0) →
      readExtensionBytes b etyp =
        .error (.extensionTypeError (wireExtType b) etyp)) ∧
    ((extLead b = mext8 ∧ nth b 1 = 0) →
      readExtensionBytes b etyp = .ok ([], b.drop 3)) ∧
    readExtension b etyp = .error (.extensionTypeError (wireExtType b) etyp) :=
  ext_mismatch_cases b etyp hwf hne

/-- Witness for `ext_mismatch_amended`: the `fixext1` object `d4 0a 05`
(type 10) decoded into an extension of type 11. -/
theorem ext_mismatch_amended_witness :
    (wellFormedExt [212, 10, 5] = true ∧ wireExtType [212, 10, 5] ≠ 11) ∧
    readExtension [212, 10, 5] 11 =
      .error (.extensionTypeError (wireExtType [212, 10, 5]) 11) :=
  ⟨⟨by decide, by decide⟩,
    (ext_mismatch_amended [212, 10, 5] 11 (by decide) (by decide)).2.2⟩

/-- C4 (counterexample): the declaration `type Buf [4]byte` — a byte
array, not a byte slice — is registered in `identTable` as `Bytes`, not
`IDENT`: `GetTypeSpecs` inspects only the element type of an
`ast.ArrayType`, never its length. -/
theorem byte_array_pass1_cex :
    lookupTable
      (pass1 [⟨"Buf", .arrayType (some (.lit "4")) (.ident "byte")⟩])
      "Buf" = some .Bytes ∧ Base.Bytes ≠ Base.IDENT :=
  ⟨rfl, by decide⟩

/-- C4 (amended): after pass 1, `identTable` maps a declaration (struct,
alias, array/slice, pointer, or map shape) whose name is not re-declared
later in the unit to its outer kind: records to `IDENT`, aliases through
`pullIdent`, arrays and slices with element identifier `byte` (both
`[]byte` and `[N]byte`) to `Bytes`, and other slices/arrays/pointers/maps
to `IDENT`. -/
theorem identTable_pass1_amended (pre post : List TypeSpec) (ts : TypeSpec)
    (hshape : recordedShape ts.typ = true)
    (hpost : ∀ u ∈ post, u.name ≠ ts.name) :
    lookupTable (pass1 (pre ++ ts :: post)) ts.name =
      some (outerKindSpec ts.typ) := by
  unfold pass1
  rw [List.foldl_append, List.foldl_cons]
  rw [pass1_preserve post _ _ hpost]
  exact recordIdent_self _ ts hshape

/-- Witness for `identTable_pass1_amended`: a unit with one alias
declaration before and one struct after. -/
theorem identTable_pass1_amended_witness :
    (recordedShape (TExpr.ident "float64") = true ∧
      ∀ u ∈ [(⟨"Other", .structType .nil⟩ : TypeSpec)],
        u.name ≠ "Celsius") ∧
    lookupTable
      (pass1 ([⟨"Pre", .structType .nil⟩] ++
        (⟨"Celsius", .ident "float64"⟩ : TypeSpec) ::
        [⟨"Other", .structType .nil⟩]))
      "Celsius" = some (outerKindSpec (TExpr.ident "float64")) :=
  ⟨⟨by decide, by decide⟩,
    identTable_pass1_amended [⟨"Pre", .structType .nil⟩]
      [⟨"Other", .structType .nil⟩] ⟨"Celsius", .ident "float64"⟩
      (by decide) (by decide)⟩

/-- C5 (counterexample): a rewritable `Base{IDENT, Ident="Celsius"}` node
sitting inside an `Array` element is neither rewritten nor reported:
`findUnresolved`'s `default` case does not walk `Array` elements, although
`identTable` maps `Celsius` to `Float64` and `Celsius` is unprocessed. -/
theorem array_not_walked_cex :
    resolveElem [("Celsius", .Float64)] []
        (.array "2" (.base .IDENT "Celsius" false "" "")) =
      (.array "2" (.base .IDENT "Celsius" false "" ""), []) ∧
    lookupTable [("Celsius", .Float64)] "Celsius" = some .Float64 ∧
    Base.Float64 ≠ Base.IDENT :=
  ⟨rfl, rfl, by decide⟩

/-- C5 (amended): on the resolver's walk (through `Ptr`, `Slice`, `Map`
values and `Struct` fields — `Array` elements are not walked), resolution
leaves no `Base{IDENT}` node whose identifier is a known non-`IDENT` alias
outside `processedTable`, and never reports such an identifier as
unresolved; in particular, feeding `type Celsius float64` then
`type Thermo struct{ T Celsius }` records `Celsius → Float64` in pass 1
and rewrites Thermo's field element to
`Base{Float64, Ident="Celsius", Convert=true}` with nothing reported. -/
theorem resolver_rewrite_amended :
    (∀ (it : List (String × Base)) (pt : List String) (e : Elem),
      hasOffender it pt (resolveElem it pt e).1 = false ∧
      ((resolveElem it pt e).2).all (fun n => !knownAlias it n) = true) ∧
    pass1 [⟨"Celsius", .ident "float64"⟩,
        ⟨"Thermo", .structType (.cons ["T"] (.ident "Celsius") none .nil)⟩] =
      [("Celsius", .Float64), ("Thermo", .IDENT)] ∧
    [(⟨"Celsius", .ident "float64"⟩ : TypeSpec),
        ⟨"Thermo", .structType (.cons ["T"] (.ident "Celsius") none .nil)⟩
      ].filterMap genElem =
      [.ptr (.struct "Thermo"
        (.fcons "T" "T" (.base .IDENT "Celsius" false "" "") .fnil))] ∧
    resolveElem [("Celsius", .Float64), ("Thermo", .IDENT)] ["Thermo"]
        (.ptr (.struct "Thermo"
          (.fcons "T" "T" (.base .IDENT "Celsius" false "" "") .fnil))) =
      (.ptr (.struct "Thermo"
        (.fcons "T" "T" (.base .Float64 "Celsius" true "" "") .fnil)), []) :=
  ⟨fun it pt e => resolveElem_sound it pt e, rfl, rfl, rfl⟩

/-- C6 (counterexample): in an inline multi-name field declaration
(`Bar, Baz int` with tag `msg:"b"`), the tag is ignored: the wire keys are
the field names, not `"b"`. -/
theorem multi_name_tag_cex :
    fieldTags (parseField ["Bar", "Baz"] (.ident "int") (some "b")) =
      ["Bar", "Baz"] ∧
    ¬("b" ∈ fieldTags (parseField ["Bar", "Baz"] (.ident "int") (some "b"))) :=
  ⟨rfl, by decide⟩

/-- C6 (amended): for a single-name field of a supported type, no `msg`
tag gives wire key = field name, a plain tag `msg:"key"` (no comma,
nonempty, not `-`) gives wire key `key`, and `msg:"-"` omits the field;
in a multi-name declaration the tag is ignored and each name becomes a
field keyed by itself; ingesting
`type Foo struct { Bar int msg:"b"; Skip string msg:"-"; Keep bool }`
produces one struct with exactly the two fields `"b"` and `"Keep"`, and
the generated encoder writes a 2-entry map header. -/
theorem field_tag_rules_amended :
    (∀ (nm : String) (typ : TExpr) (e : Elem), parseExpr typ = some e →
      parseField [nm] typ none = .fcons nm nm e .fnil) ∧
    (∀ (nm key : String) (typ : TExpr) (e : Elem), parseExpr typ = some e →
      splitOnChar ',' key = [key] → key ≠ "" → key ≠ "-" →
      parseField [nm] typ (some key) = .fcons key nm e .fnil) ∧
    (∀ (nm : String) (typ : TExpr),
      parseField [nm] typ (some "-") = .fnil) ∧
    (∀ (nms : List String) (typ : TExpr) (tag : Option String) (e : Elem),
      2 ≤ nms.length → parseExpr typ = some e →
      parseField nms typ tag = multiFields nms e ∧
      fieldTags (multiFields nms e) = nms) ∧
    genElem ⟨"Foo", .structType (.cons ["Bar"] (.ident "int") (some "b")
        (.cons ["Skip"] (.ident "string") (some "-")
          (.cons ["Keep"] (.ident "bool") none .nil)))⟩ =
      some (.ptr (.struct "Foo"
        (.fcons "b" "Bar" (.base .Int "" false "" "")
          (.fcons "Keep" "Keep" (.base .Bool "" false "" "") .fnil)))) ∧
    fieldCount (.fcons "b" "Bar" (.base .Int "" false "" "")
      (.fcons "Keep" "Keep" (.base .Bool "" false "" "") .fnil)) = 2 := by
  refine ⟨?_, ?_, ?_, ?_, rfl, rfl⟩
  · intro nm typ e he
    simp [parseField, parseFieldAux, mkNamedField, mkFinalField, he]
  · intro nm key typ e he hsplit hk1 hk2
    simp [parseField, parseFieldAux, mkNamedField, hsplit, mkFinalField,
      he, hk1, hk2]
  · intro nm typ
    rfl
  · intro nms typ tag e hlen he
    rcases nms with _ | ⟨a, _ | ⟨b, rest⟩⟩
    · simp at hlen
    · simp at hlen
    · exact ⟨by simp [parseField, parseFieldAux, he],
        fieldTags_multi _ e⟩

/-- Witness for `field_tag_rules_amended` at concrete fields. -/
theorem field_tag_rules_amended_witness :
    (parseExpr (.ident "int") = some (.base .Int "" false "" "") ∧
      splitOnChar ',' "b" = ["b"] ∧ "b" ≠ "" ∧ "b" ≠ "-") ∧
    parseField ["Bar"] (.ident "int") (some "b") =
      .fcons "b" "Bar" (.base .Int "" false "" "") .fnil :=
  ⟨⟨rfl, rfl, by decide, by decide⟩,
    (field_tag_rules_amended).2.1 "Bar" "b" (.ident "int")
      (.base .Int "" false "" "") rfl rfl (by decide) (by decide)⟩

/-- C7 (counterexample): `parseExpr` applied to the doubly-indirected type
`**int` yields `Ptr{Ptr{Base{Int}}}` — a `Ptr` whose value is itself a
`Ptr`: pointers are not collapsed at ingest. -/
theorem double_ptr_cex :
    parseExpr (.starExpr (.starExpr (.ident "int"))) =
      some (.ptr (.ptr (.base .Int "" false "" ""))) ∧
    noPtrPtr (.ptr (.ptr (.base .Int "" false "" ""))) = false :=
  ⟨rfl, rfl⟩

/-- C7 (amended): `parseExpr` maps each `*` of the source type to one
`Ptr` node, so a `Ptr`'s value is never itself a `Ptr` exactly when the
input type expression contains no immediately nested pointer (`**T`); for
such inputs every tree produced by `parseExpr` or `GenElem` satisfies the
invariant. -/
theorem ptr_flattening_amended :
    (∀ (t : TExpr), noStarStar t = true → ∀ e, parseExpr t = some e →
      noPtrPtr e = true) ∧
    (∀ (ts : TypeSpec), noStarStar ts.typ = true → ∀ e, genElem ts = some e →
      noPtrPtr e = true) := by
  constructor
  · intro t ht e he
    exact (parseExpr_flat t ht e he).1
  · intro ts ht e he
    obtain ⟨tname, ttyp⟩ := ts
    rcases ttyp with nm | fs | ⟨len, elt⟩ | x | ⟨k2, v2⟩ |
        ⟨x2, s2⟩ | n2 <;> simp only [genElem] at he
    · simp at he
    · rcases hfl : parseFieldList fs with _ | ⟨t1, n1, e1, rest⟩ <;>
        rw [hfl] at he
      · simp at he
      · simp only [Option.some.injEq] at he
        subst he
        have hflat := parseFieldList_flat fs ht
        rw [hfl] at hflat
        simp [noPtrPtr, isPtrE, hflat]
    · simp at he
    · simp at he
    · simp at he
    · simp at he
    · simp at he

/-- Witness for `ptr_flattening_amended` at `*int`. -/
theorem ptr_flattening_amended_witness :
    (noStarStar (.starExpr (.ident "int")) = true ∧
      parseExpr (.starExpr (.ident "int")) =
        some (.ptr (.base .Int "" false "" ""))) ∧
    noPtrPtr (.ptr (.base .Int "" false "" "")) = true :=
  ⟨⟨rfl, rfl⟩, (ptr_flattening_amended).1 (.starExpr (.ident "int")) rfl
    (.ptr (.base .Int "" false "" "")) rfl⟩

/-- C8 (counterexample): after running the pipeline on
`type A struct{ X int }; type B struct{ Y A }`, the resolved tree of `B`
still contains `Base{IDENT, Ident="A", Convert=false}` although `"A"` is
in `processedTable`: the resolver deliberately leaves processed
identifiers untouched for the emitter to delegate, refuting the claimed
invariant. -/
theorem processed_ident_unconverted_cex :
    [(⟨"A", .structType (.cons ["X"] (.ident "int") none .nil)⟩ : TypeSpec),
        ⟨"B", .structType (.cons ["Y"] (.ident "A") none .nil)⟩
      ].filterMap genElem =
      [.ptr (.struct "A" (.fcons "X" "X" (.base .Int "" false "" "") .fnil)),
        .ptr (.struct "B"
          (.fcons "Y" "Y" (.base .IDENT "A" false "" "") .fnil))] ∧
    resolveElem
        (pass1 [⟨"A", .structType (.cons ["X"] (.ident "int") none .nil)⟩,
          ⟨"B", .structType (.cons ["Y"] (.ident "A") none .nil)⟩])
        (processedOf
          [⟨"A", .structType (.cons ["X"] (.ident "int") none .nil)⟩,
            ⟨"B", .structType (.cons ["Y"] (.ident "A") none .nil)⟩])
        (.ptr (.struct "B"
          (.fcons "Y" "Y" (.base .IDENT "A" false "" "") .fnil))) =
      (.ptr (.struct "B"
        (.fcons "Y" "Y" (.base .IDENT "A" false "" "") .fnil)), []) ∧
    (processedOf
        [⟨"A", .structType (.cons ["X"] (.ident "int") none .nil)⟩,
          ⟨"B", .structType (.cons ["Y"] (.ident "A") none .nil)⟩]).contains
      "A" = true :=
  ⟨rfl, rfl, rfl⟩

/-- C8 (amended): resolution leaves a `Base{IDENT}` node whose identifier
is both in `identTable` and in `processedTable` untouched — it stays
`IDENT` with `Convert = false` (the emitter delegates to the generated
methods of that type) and is not reported as unresolved. -/
theorem processed_ident_left_amended (it : List (String × Base))
    (pt : List String) (i : String) (c : Bool) (st sf : String)
    (hk : (lookupTable it i).isSome = true) (hp : pt.contains i = true) :
    resolveElem it pt (.base .IDENT i c st sf) =
      (.base .IDENT i c st sf, []) :=
  resolveBase_processed it pt i c st sf hk hp

/-- Witness for `processed_ident_left_amended`. -/
theorem processed_ident_left_amended_witness :
    ((lookupTable [("A", Base.IDENT)] "A").isSome = true ∧
      (["A"] : List String).contains "A" = true) ∧
    resolveElem [("A", Base.IDENT)] ["A"] (.base .IDENT "A" false "" "") =
      (.base .IDENT "A" false "" "", []) :=
  ⟨⟨rfl, rfl⟩, processed_ident_left_amended [("A", Base.IDENT)] ["A"] "A"
    false "" "" rfl rfl⟩

/-- C9: every error type reports exactly the resumability stated in the
taxonomy: `ErrShortBytes`, `TypeError`, `IntOverflow`, `UintOverflow`,
`ArrayError` and `ExtensionTypeError` are resumable; `InvalidPrefixError`
and the fatal error are not. -/
theorem resumable_taxonomy :
    MsgpError.errShort.resumable = true ∧
    (∀ w g : Nat, (MsgpError.arrayError w g).resumable = true) ∧
    (∀ (v : Int) (b : Nat), (MsgpError.intOverflow v b).resumable = true) ∧
    (∀ v b : Nat, (MsgpError.uintOverflow v b).resumable = true) ∧
    (∀ m e : Ty, (MsgpError.typeError m e).resumable = true) ∧
    (∀ g w : Int, (MsgpError.extensionTypeError g w).resumable = true) ∧
    (∀ b : Nat, (MsgpError.invalidPrefixError b).resumable = false) ∧
    MsgpError.errFatal.resumable = false :=
  ⟨rfl, fun _ _ => rfl, fun _ _ => rfl, fun _ _ => rfl, fun _ _ => rfl,
    fun _ _ => rfl, fun _ => rfl, rfl⟩

/-- C10: `peekExtension` guards the `ext32` type byte `b[5]` with
`len(b) < 5` instead of `len(b) < 6`: on the 5-byte input
`c9 00 00 00 01` the guard passes and the access `b[5]` goes out of
bounds (modelled as `none`), instead of returning `ErrShortBytes` as the
claim requires; one byte shorter the guard correctly raises
`ErrShortBytes`, and one byte longer the read succeeds. -/
theorem peekExtension_ext32_oob :
    peekExtension [201, 0, 0, 0, 1] = none ∧
    peekExtension [201, 0, 0, 0] = some (.error .errShort) ∧
    peekExtension [201, 0, 0, 0, 1, 10] = some (.ok 10) :=
  ⟨rfl, rfl, rfl⟩

end Msgp
